import Mathlib

/-!
Verification of the SOFA data-pipeline specification against a shallow
embedding of the pipeline's Python sources
(`data-processing/src/...` of the sofa repository).

Conventions used throughout this development:

* Python lists become Lean `List`s; Python dicts become insertion-ordered
  association lists `List (key × value)` (Python dicts preserve insertion
  order); Python sets are modelled as insertion-ordered duplicate-free lists
  (Python set iteration order is unspecified, so any property proved here
  about a set-derived list is stated so that it does not depend on that
  order).
* Python strings become Lean `String`s, or `List Char` where the proofs
  must look at individual characters.
* `sorted(...)` / `list.sort()` are modelled by `List.insertionSort` with
  the corresponding (total, transitive, decidable) relation: both are
  stable sorts by a total preorder, hence produce the same list.
* Machine-level hashing (SHA-256) is implemented directly on `Nat` values
  reduced mod 2^32.
-/

namespace Sofa

/-! ### Lexicographic order on `List Nat`

Python compares strings by code point and tuples/lists of integers
lexicographically.  Both reduce to the following boolean lexicographic
order once strings are mapped to their code-point lists. -/

/-- Boolean lexicographic (weak) order on lists of naturals; this is the
order Python uses to compare two lists or tuples of integers and two
strings (after taking code points). -/
def natLexLeB : List Nat → List Nat → Bool
  | [], _ => true
  | _ :: _, [] => false
  | a :: as, b :: bs => if a < b then true else if b < a then false else natLexLeB as bs

theorem natLexLeB_refl (l : List Nat) : natLexLeB l l = true := by
  induction l with
  | nil => rfl
  | cons a as ih => simp [natLexLeB, ih]

theorem natLexLeB_total (a b : List Nat) :
    natLexLeB a b = true ∨ natLexLeB b a = true := by
  induction a generalizing b with
  | nil => exact Or.inl rfl
  | cons x xs ih =>
    cases b with
    | nil => exact Or.inr rfl
    | cons y ys =>
      by_cases hxy : x < y
      · exact Or.inl (by simp [natLexLeB, hxy])
      · by_cases hyx : y < x
        · exact Or.inr (by simp [natLexLeB, hyx, hxy])
        · have hx : x = y := Nat.le_antisymm (Nat.not_lt.mp hyx) (Nat.not_lt.mp hxy)
          subst hx
          rcases ih ys with h | h
          · exact Or.inl (by simp [natLexLeB, h])
          · exact Or.inr (by simp [natLexLeB, h])

theorem natLexLeB_trans {a b c : List Nat} (hab : natLexLeB a b = true)
    (hbc : natLexLeB b c = true) : natLexLeB a c = true := by
  induction a generalizing b c with
  | nil => rfl
  | cons x xs ih =>
    cases b with
    | nil => simp [natLexLeB] at hab
    | cons y ys =>
      cases c with
      | nil => simp [natLexLeB] at hbc
      | cons z zs =>
        simp only [natLexLeB] at hab hbc ⊢
        by_cases hxy : x < y
        · by_cases hyz : y < z
          · simp [Nat.lt_trans hxy hyz]
          · by_cases hzy : z < y
            · simp [hyz, hzy] at hbc
            · have : y = z := Nat.le_antisymm (Nat.not_lt.mp hzy) (Nat.not_lt.mp hyz)
              subst this
              simp [hxy]
        · by_cases hyx : y < x
          · simp [hxy, hyx] at hab
          · have hx : x = y := Nat.le_antisymm (Nat.not_lt.mp hyx) (Nat.not_lt.mp hxy)
            subst hx
            simp only [if_neg hxy, if_neg hyx] at hab
            by_cases hyz : x < z
            · simp [hyz]
            · by_cases hzy : z < x
              · simp [hyz, hzy] at hbc
              · have : x = z := Nat.le_antisymm (Nat.not_lt.mp hzy) (Nat.not_lt.mp hyz)
                subst this
                simp only [if_neg hxy, if_neg hyx] at hbc ⊢
                exact ih hab hbc

/-- Code-point list of a string: Python string comparison is exactly the
lexicographic comparison of these lists. -/
def strKey (s : String) : List Nat := s.data.map Char.toNat

/-- Python string order `a <= b` (used by `sorted`/`list.sort` on strings). -/
def pyStrLe (a b : String) : Prop := natLexLeB (strKey a) (strKey b) = true

instance : DecidableRel pyStrLe := fun a b =>
  inferInstanceAs (Decidable (natLexLeB (strKey a) (strKey b) = true))

instance : IsTotal String pyStrLe := ⟨fun _ _ => natLexLeB_total _ _⟩

instance : IsTrans String pyStrLe := ⟨fun _ _ _ => natLexLeB_trans⟩

/-- `str.lower()` character by character; equal to `String.toLower` but
defined by structural recursion so that concrete evaluation reduces. -/
def pyToLower (s : String) : String := String.mk (s.data.map Char.toLower)

/-- `str.startswith(p)` as a structural prefix check on characters. -/
def pyStartsWith (s p : String) : Bool := p.data.isPrefixOf s.data

/-! ### First-seen-order deduplication

The sources repeatedly use the idiom

    seen = set(); out = []
    for x in xs:
        if x not in seen: seen.add(x); out.append(x)

which keeps the first occurrence of every element. -/

/-- The seen-set deduplication loop exactly as written in the sources, with
the Python set modelled as the list of elements added so far. -/
def dedupLoop [DecidableEq α] (seen out : List α) : List α → List α
  | [] => out
  | x :: xs =>
    if x ∈ seen then dedupLoop seen out xs
    else dedupLoop (seen ++ [x]) (out ++ [x]) xs

/-- Specification-level first-seen deduplication, written as a structural
recursion with an explicit exclusion set. -/
def dkfAux [DecidableEq α] (seen : List α) : List α → List α
  | [] => []
  | x :: xs => if x ∈ seen then dkfAux seen xs else x :: dkfAux (seen ++ [x]) xs

/-- Remove duplicates keeping the first occurrence of each element. -/
def dedupKeepFirst [DecidableEq α] (l : List α) : List α := dkfAux [] l

theorem dedupLoop_eq_dkfAux [DecidableEq α] (xs : List α) :
    ∀ seen out : List α, dedupLoop seen out xs = out ++ dkfAux seen xs := by
  induction xs with
  | nil => intro seen out; simp [dedupLoop, dkfAux]
  | cons x xs ih =>
    intro seen out
    by_cases hx : x ∈ seen
    · simp [dedupLoop, dkfAux, hx, ih]
    · simp [dedupLoop, dkfAux, hx, ih]

/-- The seen-set loop run from empty accumulators is first-seen dedup. -/
theorem dedupLoop_eq_dedupKeepFirst [DecidableEq α] (xs : List α) :
    dedupLoop [] [] xs = dedupKeepFirst xs := by
  simpa using dedupLoop_eq_dkfAux xs [] []

theorem mem_dkfAux [DecidableEq α] (xs : List α) :
    ∀ seen : List α, ∀ a, a ∈ dkfAux seen xs ↔ a ∈ xs ∧ a ∉ seen := by
  induction xs with
  | nil => intro seen a; simp [dkfAux]
  | cons x xs ih =>
    intro seen a
    by_cases hx : x ∈ seen
    · simp only [dkfAux, if_pos hx, ih, List.mem_cons]
      constructor
      · rintro ⟨h1, h2⟩; exact ⟨Or.inr h1, h2⟩
      · rintro ⟨h1 | h1, h2⟩
        · subst h1; exact absurd hx h2
        · exact ⟨h1, h2⟩
    · simp only [dkfAux, if_neg hx, List.mem_cons, ih]
      constructor
      · rintro (rfl | ⟨h1, h2⟩)
        · exact ⟨Or.inl rfl, hx⟩
        · simp only [List.mem_append, List.mem_singleton] at h2
          push_neg at h2
          exact ⟨Or.inr h1, h2.1⟩
      · rintro ⟨rfl | h1, h2⟩
        · exact Or.inl rfl
        · by_cases hax : a = x
          · exact Or.inl hax
          · exact Or.inr ⟨h1, by simp [h2, hax]⟩

theorem mem_dedupKeepFirst [DecidableEq α] (xs : List α) (a : α) :
    a ∈ dedupKeepFirst xs ↔ a ∈ xs := by
  simp [dedupKeepFirst, mem_dkfAux]

theorem nodup_dkfAux [DecidableEq α] (xs : List α) :
    ∀ seen : List α, (dkfAux seen xs).Nodup := by
  induction xs with
  | nil => intro seen; simp [dkfAux]
  | cons x xs ih =>
    intro seen
    by_cases hx : x ∈ seen
    · simpa [dkfAux, hx] using ih seen
    · simp only [dkfAux, if_neg hx, List.nodup_cons]
      refine ⟨?_, ih _⟩
      intro hmem
      rcases (mem_dkfAux xs _ x).mp hmem with ⟨_, h2⟩
      simp at h2

theorem nodup_dedupKeepFirst [DecidableEq α] (xs : List α) :
    (dedupKeepFirst xs).Nodup := nodup_dkfAux xs []

theorem sublist_dkfAux [DecidableEq α] (xs : List α) :
    ∀ seen : List α, (dkfAux seen xs).Sublist xs := by
  induction xs with
  | nil => intro seen; simp [dkfAux]
  | cons x xs ih =>
    intro seen
    by_cases hx : x ∈ seen
    · simpa [dkfAux, hx] using (ih seen).cons x
    · simpa [dkfAux, hx] using (ih (seen ++ [x])).cons₂ x

/-- First-seen dedup preserves the relative order of the input: it is a
sublist of the input. -/
theorem sublist_dedupKeepFirst [DecidableEq α] (xs : List α) :
    (dedupKeepFirst xs).Sublist xs := sublist_dkfAux xs []


/-! ### SHA-256

`build_complete_feeds.py` computes `UpdateHash` with
`hashlib.sha256(json_str.encode()).hexdigest()`.  The compression function
is implemented here over `Nat` with all word arithmetic reduced mod 2^32. -/

namespace Sha2

/-- 2^32, the word modulus. -/
def w32 : Nat := 4294967296

/-- SHA-256 round constants (FIPS 180-4, written in decimal). -/
def kConsts : List Nat :=
  [1116352408, 1899447441, 3049323471, 3921009573, 961987163, 1508970993,
   2453635748, 2870763221, 3624381080, 310598401, 607225278, 1426881987,
   1925078388, 2162078206, 2614888103, 3248222580, 3835390401, 4022224774,
   264347078, 604807628, 770255983, 1249150122, 1555081692, 1996064986,
   2554220882, 2821834349, 2952996808, 3210313671, 3336571891, 3584528711,
   113926993, 338241895, 666307205, 773529912, 1294757372, 1396182291,
   1695183700, 1986661051, 2177026350, 2456956037, 2730485921, 2820302411,
   3259730800, 3345764771, 3516065817, 3600352804, 4094571909, 275423344,
   430227734, 506948616, 659060556, 883997877, 958139571, 1322822218,
   1537002063, 1747873779, 1955562222, 2024104815, 2227730452, 2361852424,
   2428436474, 2756734187, 3204031479, 3329325298]

/-- SHA-256 initial hash values (FIPS 180-4, written in decimal). -/
def hInit : List Nat :=
  [1779033703, 3144134277, 1013904242, 2773480762,
   1359893119, 2600822924, 528734635, 1541459225]

/-- 32-bit right rotation. -/
def rotr (n x : Nat) : Nat := (x / 2 ^ n + x % 2 ^ n * 2 ^ (32 - n)) % w32

/-- Right shift. -/
def shr (n x : Nat) : Nat := x / 2 ^ n

/-- Addition mod 2^32. -/
def add32 (a b : Nat) : Nat := (a + b) % w32

/-- 32-bit bitwise complement. -/
def bnot32 (x : Nat) : Nat := (w32 - 1) ^^^ x

/-- Upper-case sigma-0. -/
def bigSigma0 (x : Nat) : Nat := rotr 2 x ^^^ rotr 13 x ^^^ rotr 22 x

/-- Upper-case sigma-1. -/
def bigSigma1 (x : Nat) : Nat := rotr 6 x ^^^ rotr 11 x ^^^ rotr 25 x

/-- Lower-case sigma-0. -/
def smallSigma0 (x : Nat) : Nat := rotr 7 x ^^^ rotr 18 x ^^^ shr 3 x

/-- Lower-case sigma-1. -/
def smallSigma1 (x : Nat) : Nat := rotr 17 x ^^^ rotr 19 x ^^^ shr 10 x

/-- Choice function. -/
def chFn (x y z : Nat) : Nat := (x &&& y) ^^^ (bnot32 x &&& z)

/-- Majority function. -/
def majFn (x y z : Nat) : Nat := (x &&& y) ^^^ (x &&& z) ^^^ (y &&& z)

/-- Extend the 16 message words to 64 (adds `fuel` more words). -/
def extendLoop : Nat → Array Nat → Array Nat
  | 0, w => w
  | n + 1, w =>
    let i := w.size
    let nw :=
      add32 (add32 (smallSigma1 (w.getD (i - 2) 0)) (w.getD (i - 7) 0))
        (add32 (smallSigma0 (w.getD (i - 15) 0)) (w.getD (i - 16) 0))
    extendLoop n (w.push nw)

/-- The 64-entry message schedule of one block. -/
def schedule (block : List Nat) : List Nat := (extendLoop 48 block.toArray).toList

/-- The eight working registers. -/
structure Regs where
  ra : Nat
  rb : Nat
  rc : Nat
  rd : Nat
  re : Nat
  rf : Nat
  rg : Nat
  rh : Nat

/-- One round of the compression function; `kw` is the round constant plus
schedule word pair. -/
def compressStep (r : Regs) (kw : Nat × Nat) : Regs :=
  let t1 := add32 r.rh (add32 (bigSigma1 r.re) (add32 (chFn r.re r.rf r.rg) (add32 kw.1 kw.2)))
  let t2 := add32 (bigSigma0 r.ra) (majFn r.ra r.rb r.rc)
  ⟨add32 t1 t2, r.ra, r.rb, r.rc, add32 r.rd t1, r.re, r.rf, r.rg⟩

/-- Process a 16-word block, updating the running hash values. -/
def processBlock (hs : List Nat) (block : List Nat) : List Nat :=
  let g := fun i => hs.getD i 0
  let r0 : Regs := ⟨g 0, g 1, g 2, g 3, g 4, g 5, g 6, g 7⟩
  let rz := (kConsts.zip (schedule block)).foldl compressStep r0
  [add32 (g 0) rz.ra, add32 (g 1) rz.rb, add32 (g 2) rz.rc, add32 (g 3) rz.rd,
   add32 (g 4) rz.re, add32 (g 5) rz.rf, add32 (g 6) rz.rg, add32 (g 7) rz.rh]

/-- Big-endian 8-byte encoding of a length. -/
def be64 (n : Nat) : List Nat :=
  [n / 2 ^ 56 % 256, n / 2 ^ 48 % 256, n / 2 ^ 40 % 256, n / 2 ^ 32 % 256,
   n / 2 ^ 24 % 256, n / 2 ^ 16 % 256, n / 2 ^ 8 % 256, n % 256]

/-- SHA-256 padding: append `0x80`, zeros, and the 64-bit message length. -/
def padMsg (m : List Nat) : List Nat :=
  m ++ 128 :: (List.replicate ((119 - m.length % 64) % 64) 0 ++ be64 (8 * m.length))

/-- Split a byte list into chunks of 64 bytes. -/
def chunk64 : List Nat → List (List Nat)
  | [] => []
  | x :: xs => (x :: xs).take 64 :: chunk64 ((x :: xs).drop 64)
  termination_by l => l.length
  decreasing_by simp [List.length_drop]; omega

/-- Big-endian 32-bit words from bytes. -/
def toWords : List Nat → List Nat
  | b1 :: b2 :: b3 :: b4 :: rest =>
    (((b1 * 256 + b2) * 256 + b3) * 256 + b4) :: toWords rest
  | _ => []

/-- SHA-256 of a byte list, as eight 32-bit words. -/
def sha256Words (msg : List Nat) : List Nat :=
  (chunk64 (padMsg msg)).foldl (fun hs b => processBlock hs (toWords b)) hInit

/-- Lower-case hex digit. -/
def hexChar (n : Nat) : Char := Char.ofNat (if n < 10 then 48 + n else 87 + n)

/-- Eight hex digits of a 32-bit word. -/
def word8Hex (w : Nat) : List Char :=
  (List.range 8).map fun i => hexChar (w / 16 ^ (7 - i) % 16)

/-- SHA-256 of a byte list as a lower-case hex string, the value of Python's
`hashlib.sha256(bytes).hexdigest()`. -/
def sha256Hex (msg : List Nat) : String :=
  String.mk ((sha256Words msg).flatMap word8Hex)

end Sha2

/-- UTF-8 bytes of a string, modelling Python's `str.encode()`. -/
def utf8Bytes (s : String) : List Nat :=
  s.data.flatMap fun c => (String.utf8EncodeChar c).map UInt8.toNat


/-! ### JSON values and `json.dumps(..., sort_keys=True)`

`CompleteFeedBuilder._compute_hash` serializes a dict with
`json.dumps(data, sort_keys=True)` and hashes the UTF-8 bytes with SHA-256
(`build_complete_feeds.py`, lines 81-87).  JSON values are modelled by
`JValue`; Python dicts keep insertion order, so objects carry their fields
as an ordered association list. -/

/-- A JSON value as handled by the feed builder. -/
inductive JValue where
  | jnull : JValue
  | jbool : Bool → JValue
  | jnum : Int → JValue
  | jstr : String → JValue
  | jarr : List JValue → JValue
  | jobj : List (String × JValue) → JValue

/-- Four lower-case hex digits. -/
def hex4 (n : Nat) : List Char :=
  (List.range 4).map fun i => Sha2.hexChar (n / 16 ^ (3 - i) % 16)

/-- JSON escaping of one character as done by `json.dumps` with its default
`ensure_ascii=True`. -/
def escapeChar (c : Char) : List Char :=
  let n := c.toNat
  if c = '"' then ['\\', '"']
  else if c = '\\' then ['\\', '\\']
  else if n = 8 then ['\\', 'b']
  else if n = 9 then ['\\', 't']
  else if n = 10 then ['\\', 'n']
  else if n = 12 then ['\\', 'f']
  else if n = 13 then ['\\', 'r']
  else if n < 32 then '\\' :: 'u' :: hex4 n
  else if n < 127 then [c]
  else if n < 65536 then '\\' :: 'u' :: hex4 n
  else
    let m := n - 65536
    ('\\' :: 'u' :: hex4 (55296 + m / 1024)) ++ '\\' :: 'u' :: hex4 (56320 + m % 1024)

/-- A JSON string literal. -/
def encStr (s : String) : String :=
  String.mk ('"' :: (s.data.flatMap escapeChar ++ ['"']))

/-- Opening brace of a JSON object. -/
def obr : String := String.mk [Char.ofNat 123]

/-- Closing brace of a JSON object. -/
def cbr : String := String.mk [Char.ofNat 125]

/-- Order on already-serialized object fields: compare the raw keys with
Python string order (this is what `sort_keys=True` sorts by). -/
def fieldLe (a b : String × String) : Prop := pyStrLe a.1 b.1

instance : DecidableRel fieldLe := fun a b =>
  inferInstanceAs (Decidable (pyStrLe a.1 b.1))

mutual

/-- `json.dumps(v, sort_keys=True)` with Python's default separators. -/
def dumpsVal : JValue → String
  | .jnull => "null"
  | .jbool true => "true"
  | .jbool false => "false"
  | .jnum n => toString n
  | .jstr s => encStr s
  | .jarr xs => "[" ++ String.intercalate ", " (dumpsList xs) ++ "]"
  | .jobj fs =>
    obr ++
      String.intercalate ", "
        ((List.insertionSort fieldLe (dumpsFields fs)).map Prod.snd) ++ cbr

/-- Serialize the elements of a JSON array. -/
def dumpsList : List JValue → List String
  | [] => []
  | v :: vs => dumpsVal v :: dumpsList vs

/-- Serialize object fields in insertion order, keeping the raw key for the
subsequent `sort_keys` sort. -/
def dumpsFields : List (String × JValue) → List (String × String)
  | [] => []
  | (k, v) :: fs => (k, encStr k ++ ": " ++ dumpsVal v) :: dumpsFields fs

end

/-- `CompleteFeedBuilder._compute_hash`: SHA-256 hex digest of the
`sort_keys` JSON serialization.  All call sites in the sources pass a dict,
so the argument is the field list of a JSON object. -/
def computeHash (fields : List (String × JValue)) : String :=
  Sha2.sha256Hex (utf8Bytes (dumpsVal (.jobj fields)))

/-- The tail of `CompleteFeedBuilder.create_legacy_feed` (lines 815-817):
`update_hash = self._compute_hash(feed)` followed by
`feed = {"UpdateHash": update_hash, **feed}`. -/
def attachUpdateHash (feed : List (String × JValue)) : List (String × JValue) :=
  ("UpdateHash", .jstr (computeHash feed)) :: feed

/-- The macOS v1 feed body as assembled by `create_legacy_feed` before the
hash is attached (lines 688-694). -/
def mkMacFeedBody (osVersions xpPayloads xpConfig models apps : JValue) :
    List (String × JValue) :=
  [("OSVersions", osVersions), ("XProtectPayloads", xpPayloads),
   ("XProtectPlistConfigData", xpConfig), ("Models", models),
   ("InstallationApps", apps)]

/-- The non-macOS v1 feed body (`feed = {"OSVersions": os_versions}`,
line 813). -/
def mkOtherFeedBody (osVersions : JValue) : List (String × JValue) :=
  [("OSVersions", osVersions)]

/-- Drop the fields with the given keys from a JSON object body. -/
def removeKeys (ks : List String) (fields : List (String × JValue)) :
    List (String × JValue) :=
  fields.filter fun f => f.1 ∉ ks


/-- C1: For every emitted v1 feed document, the stored top-level
`UpdateHash` equals the SHA-256 hash recomputed over the document with the
`UpdateHash` field (and any `generated_at` field — v1 bodies never carry
one) removed: the hash is computed over the feed body before `UpdateHash`
is attached, so recomputing it from the published document minus
`UpdateHash` reproduces the stored value.  This holds for both the macOS
body and the body used for every other platform. -/
theorem c1_update_hash_recomputable (osVersions xpPayloads xpConfig models apps : JValue) :
    (List.lookup "UpdateHash"
        (attachUpdateHash (mkMacFeedBody osVersions xpPayloads xpConfig models apps)) =
      some (.jstr (computeHash (removeKeys ["UpdateHash", "generated_at"]
        (attachUpdateHash (mkMacFeedBody osVersions xpPayloads xpConfig models apps)))))) ∧
    (List.lookup "UpdateHash" (attachUpdateHash (mkOtherFeedBody osVersions)) =
      some (.jstr (computeHash (removeKeys ["UpdateHash", "generated_at"]
        (attachUpdateHash (mkOtherFeedBody osVersions)))))) := by
  constructor <;>
    simp [attachUpdateHash, mkMacFeedBody, mkOtherFeedBody, removeKeys, List.lookup,
      List.filter]


/-! ### `SecurityPageFetcher.fetch_from_url` (`fetch_security_pages.py`)

State per URL: the metadata JSON (`load_meta`/`save_meta`) and the raw
cached HTML (`load_raw`/`save_raw`).  The network is modelled as a function
from the optional `If-Modified-Since` header value sent with the request to
the response received; the list of requests actually issued is returned so
that conditional-retry behaviour is observable.  The content hash
(`_get_content_hash`: BeautifulSoup script/style/noscript stripping,
whitespace collapsing, SHA-256) is abstracted as an explicit function
parameter, since HTML parsing is outside the embedding; no claim below
depends on its value. -/

/-- An HTTP response as far as `fetch_from_url` inspects it. -/
structure HttpResp where
  status : Nat
  body : String
  lastModified : Option String
deriving DecidableEq, Repr

/-- A cached url-metadata entry (`save_meta` writes url, last_modified,
content_hash and the `seen` timestamp). -/
structure UrlMeta where
  url : String
  lastModified : String
  contentHash : String
  seen : String
deriving DecidableEq, Repr

/-- The per-URL cache state: optional metadata file and optional raw HTML. -/
structure CacheSt where
  meta : Option UrlMeta
  raw : Option String
deriving DecidableEq, Repr

/-- Result of a successful `fetch_from_url` call, together with the list of
requests issued (each recorded as the `If-Modified-Since` value it
carried). -/
structure FetchOut where
  html : String
  wasModified : Bool
  state : CacheSt
  requests : List (Option String)
deriving DecidableEq, Repr

/-- The `If-Modified-Since` header for the first request: present only when
neither `force_refresh` nor `verify_content` is set and the cached metadata
has a non-empty `last_modified` (lines 240-244). -/
def imsHeader (st : CacheSt) (forceRefresh verifyContent : Bool) : Option String :=
  if forceRefresh || verifyContent then none
  else
    match st.meta with
    | some m => if m.lastModified ≠ "" then some m.lastModified else none
    | none => none

/-- Processing of a non-304 response (lines 284-327 of
`fetch_from_url`): `raise_for_status` (a 4xx/5xx raises, which the
`RequestException` handler turns into a cached-content fallback, lines
329-336), then content-hash comparison, then `save_meta`/`save_raw` only
when the content is considered changed. -/
def processResp (st : CacheSt) (url : String) (forceRefresh : Bool)
    (contentHash : String → String) (now : String) (resp : HttpResp)
    (reqs : List (Option String)) : Except Unit FetchOut :=
  if 400 ≤ resp.status then
    match st.raw with
    | some cached => .ok ⟨cached, false, st, reqs⟩
    | none => .error ()
  else
    let html := resp.body
    let ch := contentHash html
    let oldHash := (st.meta.map (·.contentHash)).getD ""
    if ¬forceRefresh ∧ oldHash = ch then
      .ok ⟨html, false, st, reqs⟩
    else
      .ok ⟨html, true,
        ⟨some ⟨url, resp.lastModified.getD "", ch, now⟩, some html⟩, reqs⟩

/-- `SecurityPageFetcher.fetch_from_url` (lines 222-336).  `net` maps the
`If-Modified-Since` header value of a request to the response; `now` is the
timestamp `save_meta` would record. -/
def fetchFromUrl (st : CacheSt) (url : String) (forceRefresh verifyContent : Bool)
    (contentHash : String → String) (now : String)
    (net : Option String → HttpResp) : Except Unit FetchOut :=
  let ims := imsHeader st forceRefresh verifyContent
  let resp1 := net ims
  if resp1.status = 304 then
    match st.raw with
    | some cached => .ok ⟨cached, false, st, [ims]⟩
    | none =>
      processResp st url forceRefresh contentHash now (net none) [ims, none]
  else
    processResp st url forceRefresh contentHash now resp1 [ims]


/-- C5 (amended): a 2xx fetch whose recomputed content hash equals the
stored `content_hash`, with `force_refresh` not set, returns
`wasModified = false` and performs exactly one request, but leaves the
cached metadata (including its `seen` timestamp) and raw body completely
unchanged: `fetch_from_url` returns before `save_meta`/`save_raw` on the
hash-match path (line 304), so no metadata timestamp is refreshed. -/
theorem c5_unchanged_hash_keeps_state (st : CacheSt) (url : String)
    (verifyContent : Bool) (contentHash : String → String) (now : String)
    (net : Option String → HttpResp) (m : UrlMeta)
    (hmeta : st.meta = some m)
    (h304 : (net (imsHeader st false verifyContent)).status ≠ 304)
    (hok : (net (imsHeader st false verifyContent)).status < 400)
    (hhash : contentHash (net (imsHeader st false verifyContent)).body = m.contentHash) :
    fetchFromUrl st url false verifyContent contentHash now net =
      .ok ⟨(net (imsHeader st false verifyContent)).body, false, st,
        [imsHeader st false verifyContent]⟩ := by
  unfold fetchFromUrl
  rw [if_neg h304]
  unfold processResp
  rw [if_neg (by omega)]
  simp [hmeta, hhash]

/-- Witness for `c5_unchanged_hash_keeps_state` at a concrete cache state
and network. -/
theorem c5_unchanged_hash_keeps_state_witness :
    fetchFromUrl ⟨some ⟨"u", "lm", "B", "2024-01-01T00:00:00Z"⟩, some "B"⟩ "u"
        false false id "2025-01-01T00:00:00Z" (fun _ => ⟨200, "B", some "lm"⟩) =
      .ok ⟨"B", false, ⟨some ⟨"u", "lm", "B", "2024-01-01T00:00:00Z"⟩, some "B"⟩,
        [some "lm"]⟩ := by
  exact c5_unchanged_hash_keeps_state
    ⟨some ⟨"u", "lm", "B", "2024-01-01T00:00:00Z"⟩, some "B"⟩ "u" false id
    "2025-01-01T00:00:00Z" (fun _ => ⟨200, "B", some "lm"⟩)
    ⟨"u", "lm", "B", "2024-01-01T00:00:00Z"⟩ rfl (by decide) (by decide) rfl

/-- C5 counterexample: at this concrete input (warm metadata whose stored
hash matches the refetched 200 body, `force_refresh` unset) the call
returns `wasModified = false` but the cached metadata entry is returned
unchanged — its `seen` timestamp still reads `2024-01-01T00:00:00Z` even
though the call was made at `2025-01-01T00:00:00Z` — so the claim that the
metadata timestamp is refreshed on this path is false. -/
theorem c5_counterexample :
    fetchFromUrl ⟨some ⟨"u", "lm", "B", "2024-01-01T00:00:00Z"⟩, some "B"⟩ "u"
        false false id "2025-01-01T00:00:00Z" (fun _ => ⟨200, "B", some "lm"⟩) =
      .ok ⟨"B", false, ⟨some ⟨"u", "lm", "B", "2024-01-01T00:00:00Z"⟩, some "B"⟩,
        [some "lm"]⟩ ∧
    ("2024-01-01T00:00:00Z" : String) ≠ "2025-01-01T00:00:00Z" := by
  constructor
  · rfl
  · decide

/-- C6: on an HTTP 304 response, (a) if cached raw bytes exist they are
returned with `wasModified = false` and no further request is issued (the
request trace has exactly the one conditional request); (b) if no cached
raw bytes exist, the fetcher issues a second request with the
`If-Modified-Since` header removed and processes its response normally: in
particular any non-error retry response yields a successful result whose
request trace shows the retry was sent without the conditional header. -/
theorem c6_304_cached_or_retry (st : CacheSt) (url : String)
    (forceRefresh verifyContent : Bool) (contentHash : String → String)
    (now : String) (net : Option String → HttpResp)
    (h304 : (net (imsHeader st forceRefresh verifyContent)).status = 304) :
    (∀ cached, st.raw = some cached →
      fetchFromUrl st url forceRefresh verifyContent contentHash now net =
        .ok ⟨cached, false, st, [imsHeader st forceRefresh verifyContent]⟩) ∧
    (st.raw = none →
      fetchFromUrl st url forceRefresh verifyContent contentHash now net =
        processResp st url forceRefresh contentHash now (net none)
          [imsHeader st forceRefresh verifyContent, none] ∧
      ((net none).status < 400 →
        ∃ out, fetchFromUrl st url forceRefresh verifyContent contentHash now net =
            .ok out ∧
          out.requests = [imsHeader st forceRefresh verifyContent, none] ∧
          out.html = (net none).body)) := by
  constructor
  · intro cached hraw
    unfold fetchFromUrl
    rw [if_pos h304, hraw]
  · intro hraw
    have hfetch : fetchFromUrl st url forceRefresh verifyContent contentHash now net =
        processResp st url forceRefresh contentHash now (net none)
          [imsHeader st forceRefresh verifyContent, none] := by
      unfold fetchFromUrl
      rw [if_pos h304, hraw]
    refine ⟨hfetch, fun hok => ?_⟩
    rw [hfetch]
    unfold processResp
    rw [if_neg (by omega)]
    by_cases hcond : ¬forceRefresh ∧ ((st.meta.map (·.contentHash)).getD "" =
        contentHash (net none).body)
    · rw [if_pos hcond]
      exact ⟨_, rfl, rfl, rfl⟩
    · rw [if_neg hcond]
      exact ⟨_, rfl, rfl, rfl⟩

/-- Witness for `c6_304_cached_or_retry`: a 304 with a cached body returns
the cache after a single conditional request, and a 304 without a cached
body is retried unconditionally and succeeds. -/
theorem c6_304_cached_or_retry_witness :
    (fetchFromUrl ⟨some ⟨"u", "lm", "h", "t"⟩, some "cached"⟩ "u" false false id "t2"
        (fun _ => ⟨304, "", none⟩) =
      .ok ⟨"cached", false, ⟨some ⟨"u", "lm", "h", "t"⟩, some "cached"⟩, [some "lm"]⟩) ∧
    (∃ out,
      fetchFromUrl ⟨some ⟨"u", "lm", "h", "t"⟩, none⟩ "u" false false id "t2"
          (fun o => match o with | some _ => ⟨304, "", none⟩ | none => ⟨200, "fresh", none⟩) =
        .ok out ∧
      out.requests = [some "lm", none] ∧ out.html = "fresh") := by
  constructor
  · exact (c6_304_cached_or_retry ⟨some ⟨"u", "lm", "h", "t"⟩, some "cached"⟩ "u"
      false false id "t2" (fun _ => ⟨304, "", none⟩) (by decide)).1 "cached" rfl
  · exact ((c6_304_cached_or_retry ⟨some ⟨"u", "lm", "h", "t"⟩, none⟩ "u" false false id "t2"
      (fun o => match o with | some _ => ⟨304, "", none⟩ | none => ⟨200, "fresh", none⟩)
      (by decide)).2 rfl).2 (by decide)


/-! ### `SmartKEVDetector` (`smart_kev_detector.py`)

`detect_apple_exploitation` runs six case-insensitive regex searches; the
first three and the last are literal substring searches, one is a
two-literal `A.*B` search, and one extracts an OS name and version.
`re.search(p, text, IGNORECASE | DOTALL)` semantics are implemented
directly on character lists.  The `raw_text` diagnostic field (the first
200 characters of the match) is not modelled; no other field depends on
it. -/

/-- Source of exploitation information (`ExploitationSource`). -/
inductive ExpSource where
  | appleDirect
  | appleTargeted
  | appleVersionSpecific
  | cisaKev
  | crossPlatform
deriving DecidableEq, Repr

/-- Confidence level (`ExploitationConfidence`). -/
inductive ExpConfidence where
  | confirmed
  | high
  | medium
  | low
deriving DecidableEq, Repr

/-- `ExploitationInfo` dataclass (minus the diagnostic `raw_text`).
`affected_platforms` is a Python set, modelled as its insertion-ordered
duplicate-free element list. -/
structure ExpInfo where
  cveId : String
  isExploited : Bool
  confidence : ExpConfidence
  sources : List ExpSource
  affectedPlatforms : List String
  targetedVersions : Option (List String) := none
  isTargetedAttack : Bool := false
  isPhysicalAttack : Bool := false
  notes : Option String := none
deriving DecidableEq, Repr

/-- Case-insensitive substring search: `re.search` of a literal pattern
(`pat` is given in lower case) with `IGNORECASE`. -/
def containsLowerCI (text pat : String) : Bool :=
  decide (pat.data <:+: (pyToLower text).data)

/-- Worker for `seqSearchLowerCI`, scanning start positions left to
right. -/
def seqAux (p1 p2 : List Char) : List Char → Bool
  | [] => p1.isPrefixOf ([] : List Char) && decide (p2 <:+: ([] : List Char))
  | c :: cs =>
    (p1.isPrefixOf (c :: cs) && decide (p2 <:+: (c :: cs).drop p1.length)) ||
      seqAux p1 p2 cs

/-- Case-insensitive `re.search(p1 + ".*" + p2, text, DOTALL)`: some
occurrence of `p1` is followed (at or after its end) by `p2`. -/
def seqSearchLowerCI (text p1 p2 : String) : Bool :=
  seqAux p1.data p2.data (pyToLower text).data

/-- Match a lower-case literal pattern against a prefix of the text,
case-insensitively; returns the remaining text. -/
def matchLitCI : List Char → List Char → Option (List Char)
  | [], t => some t
  | _ :: _, [] => none
  | p :: ps, c :: cs => if c.toLower = p then matchLitCI ps cs else none

/-- The OS alternation of the version-specific pattern, in source order. -/
def osAlternatives : List String :=
  ["iOS", "iPadOS", "macOS", "watchOS", "tvOS", "visionOS"]

/-- Greedy `[\d\.]+` at the current position. -/
def takeVersionChars (r : List Char) : Option String :=
  let run := r.takeWhile fun c => c.isDigit || c = '.'
  if run.isEmpty then none else some (String.mk run)

/-- The optional `(?:iOS |iPadOS |...)?` group before the version, with
regex backtracking across the alternatives and the empty option. -/
def tryOsPrefixes : List String → List Char → Option String
  | [], r => takeVersionChars r
  | os :: rest, r =>
    match matchLitCI ((pyToLower os).data ++ [' ']) r with
    | some r2 =>
      match takeVersionChars r2 with
      | some v => some v
      | none => tryOsPrefixes rest r
    | none => tryOsPrefixes rest r

/-- `before (?:OS )?VERSION` with the optional `released ` handled by the
caller. -/
def afterBeforeKw (r : List Char) : Option String :=
  match matchLitCI "before ".data r with
  | some r2 => tryOsPrefixes osAlternatives r2
  | none => none

/-- `(?:released )?before ...` with backtracking over the optional
group. -/
def vsTail (r : List Char) : Option String :=
  match matchLitCI "released ".data r with
  | some r2 =>
    match afterBeforeKw r2 with
    | some v => some v
    | none => afterBeforeKw r
  | none => afterBeforeKw r

/-- Try the OS-name alternatives of the capture group, backtracking to the
next alternative when the rest of the pattern fails; returns (OS name as it
appears in the text, version). -/
def tryOsNames : List String → List Char → Option (String × String)
  | [], _ => none
  | os :: rest, r =>
    let attempt :=
      match matchLitCI (pyToLower os).data r with
      | some r2 =>
        match matchLitCI [' '] r2 with
        | some r3 => (vsTail r3).map fun v => (String.mk (r.take os.length), v)
        | none => none
      | none => none
    match attempt with
    | some x => some x
    | none => tryOsNames rest r

/-- Match the full version-specific pattern at the current position. -/
def matchVsAt (t : List Char) : Option (String × String) :=
  (matchLitCI "actively exploited against versions of ".data t).bind
    (tryOsNames osAlternatives)

/-- `re.search` scan for the version-specific pattern. -/
def searchVs : List Char → Option (String × String)
  | [] => none
  | c :: cs =>
    match matchVsAt (c :: cs) with
    | some x => some x
    | none => searchVs cs

/-- Search the version-specific exploitation pattern in a text, yielding
the matched (OS, version) capture groups. -/
def detectVersionSpecific (text : String) : Option (String × String) :=
  searchVs text.data

/-- The blank `ExploitationInfo` built at the top of
`detect_apple_exploitation` / `get_exploitation_status`. -/
def blankInfo (cveId platform : String) : ExpInfo :=
  { cveId := cveId, isExploited := false, confidence := .low, sources := [],
    affectedPlatforms := [platform] }

/-- Apply one matched pattern row of `APPLE_PATTERNS` to the accumulating
info (every row carries `is_exploited: True`; the targeted/physical flags
are overwritten on each match and notes only when the row has them, exactly
as in the loop body). -/
def applyPat (matched : Bool) (src : ExpSource) (conf : ExpConfidence)
    (targeted physical : Bool) (mnotes : Option String) (info : ExpInfo) : ExpInfo :=
  if matched then
    { info with
      isExploited := true
      confidence := conf
      sources := info.sources ++ [src]
      isTargetedAttack := targeted
      isPhysicalAttack := physical
      notes := match mnotes with | some n => some n | none => info.notes }
  else info

/-- Python `set.add`. -/
def addPlatform (l : List String) (p : String) : List String :=
  if p ∈ l then l else l ++ [p]

/-- The version-specific row of `APPLE_PATTERNS`: on a match it marks
exploitation, records the `targeted_versions` capture and adds the matched
OS to `affected_platforms`. -/
def applyPatVs (vs : Option (String × String)) (info : ExpInfo) : ExpInfo :=
  match vs with
  | some (os, ver) =>
    { info with
      isExploited := true
      confidence := .confirmed
      sources := info.sources ++ [.appleVersionSpecific]
      targetedVersions := some [os ++ " " ++ ver]
      affectedPlatforms := addPlatform info.affectedPlatforms os
      isTargetedAttack := false
      isPhysicalAttack := false }
  | none => info

/-- The six-row `APPLE_PATTERNS` loop of `detect_apple_exploitation`
applied in declaration order. -/
def applyAllPatterns (text : String) (info : ExpInfo) : ExpInfo :=
  let i1 := applyPat
    (containsLowerCI text "apple is aware of a report that this issue may have been exploited")
    .appleDirect .confirmed false false none info
  let i2 := applyPat
    (containsLowerCI text "apple is aware of a report that this issue may have been actively exploited")
    .appleDirect .confirmed false false none i1
  let i3 := applyPat
    (containsLowerCI text "exploited in an extremely sophisticated attack against specific targeted individuals")
    .appleTargeted .confirmed true false none i2
  let i4 := applyPatVs (detectVersionSpecific text) i3
  let i5 := applyPat
    (seqSearchLowerCI text "a physical attack may"
      "apple is aware of a report that this issue may have been exploited")
    .appleDirect .confirmed false true none i4
  applyPat
    (containsLowerCI text "this is a supplementary fix for an attack that was blocked")
    .appleDirect .high false false
    (some "Supplementary fix for previously blocked attack") i5

/-- `SmartKEVDetector.detect_apple_exploitation`: returns the accumulated
info only when some pattern marked it exploited. -/
def detectAppleExploitation (cveId text platform : String) : Option ExpInfo :=
  let iz := applyAllPatterns text (blankInfo cveId platform)
  if iz.isExploited then some iz else none


/-- Detector state: the CISA KEV id set (`self.cisa_kevs`) and the
cross-platform memory (`self.apple_exploited`), an insertion-ordered
dict from CVE id to `ExploitationInfo`. -/
structure DetectorState where
  cisaKevs : List String
  appleExploited : List (String × ExpInfo)
deriving Repr

/-- Python dict assignment `d[k] = v`: replace in place when the key
exists, append otherwise. -/
def assocSet (m : List (String × ExpInfo)) (k : String) (v : ExpInfo) :
    List (String × ExpInfo) :=
  if m.any (fun p => p.1 = k) then
    m.map fun p => if p.1 = k then (k, v) else p
  else m ++ [(k, v)]

/-- `SmartKEVDetector.check_cross_platform_exploitation` (lines 186-212). -/
def checkCrossPlatformExploitation (st : DetectorState)
    (cveId currentPlatform : String) : Option ExpInfo :=
  match List.lookup cveId st.appleExploited with
  | some existing =>
    if currentPlatform ∉ existing.affectedPlatforms then
      some { cveId := cveId, isExploited := false, confidence := .medium,
             sources := [.crossPlatform], affectedPlatforms := [currentPlatform],
             notes := some ("Known exploited on: " ++
               String.intercalate ", " existing.affectedPlatforms) }
    else none
  | none => none

/-- The Apple-text branch of `get_exploitation_status` (lines 233-239):
run `detect_apple_exploitation` when text is given, remember a positive
result in `self.apple_exploited`. -/
def appleStep (st : DetectorState) (cveId : String) (appleText : Option String)
    (platform : String) : ExpInfo × DetectorState :=
  match appleText with
  | some t =>
    match detectAppleExploitation cveId t platform with
    | some ai => (ai, { st with appleExploited := assocSet st.appleExploited cveId ai })
    | none => (blankInfo cveId platform, st)
  | none => (blankInfo cveId platform, st)

/-- The CISA branch of `get_exploitation_status` (lines 241-248): KEV
membership forces `is_exploited`, appends the `cisa_kev` source if absent
and upgrades a non-`confirmed` confidence to `high`. -/
def cisaStep (st : DetectorState) (cveId : String) (info1 : ExpInfo) : ExpInfo :=
  if cveId ∈ st.cisaKevs then
    { info1 with
      isExploited := true
      sources :=
        if ExpSource.cisaKev ∈ info1.sources then info1.sources
        else info1.sources ++ [.cisaKev]
      confidence :=
        if info1.confidence ≠ .confirmed then .high else info1.confidence }
  else info1

/-- `SmartKEVDetector.get_exploitation_status` (lines 214-256), returning
the info together with the updated detector state (the Apple branch stores
its result in `self.apple_exploited`). -/
def getExploitationStatus (st : DetectorState) (cveId : String)
    (appleText : Option String) (platform : String) : ExpInfo × DetectorState :=
  let step1 := appleStep st cveId appleText platform
  let info2 := cisaStep st cveId step1.1
  if info2.isExploited then (info2, step1.2)
  else
    match checkCrossPlatformExploitation step1.2 cveId platform with
    | some ci => (ci, step1.2)
    | none => (info2, step1.2)

/-- Result of `SmartKEVEnricher.enrich_release`
(`enrich_with_smart_kev.py`, lines 119-191): the
`actively_exploited_cves` list, the `cross_platform_exploitation_warnings`
(cve, note) list, the `cisa_kevs` list and the final detector state. -/
structure EnrichOut where
  actively : List String
  crossWarnings : List (String × Option String)
  cisaList : List String
  finalState : DetectorState

/-- The per-CVE loop of `SmartKEVEnricher.enrich_release`: each CVE is
classified with `get_exploitation_status(cve, apple_text=None, platform)`
and appended to the matching output lists. -/
def enrichLoop (st : DetectorState) (platform : String) : List String → EnrichOut
  | [] => ⟨[], [], [], st⟩
  | c :: cs =>
    let r := getExploitationStatus st c none platform
    let rest := enrichLoop r.2 platform cs
    { actively := (if r.1.isExploited then [c] else []) ++ rest.actively
      crossWarnings :=
        (if ExpSource.crossPlatform ∈ r.1.sources then [(c, r.1.notes)] else []) ++
          rest.crossWarnings
      cisaList := (if ExpSource.cisaKev ∈ r.1.sources then [c] else []) ++ rest.cisaList
      finalState := rest.finalState }


/-! ### `KEVPolicy` / `FeedEnrichmentPolicy` (`utils/kev_policy.py`) -/

/-- Per-CVE exploitation data consumed by the policy
(`exploitation_data[cve]`). -/
structure CveExpData where
  platforms : List String
  inCisaKev : Bool
  categories : List String
deriving DecidableEq, Repr

/-- `ExploitationLevel`. -/
inductive ExpLevel where
  | activelyExploited
  | exploitationWarning
  | targetedAttack
  | physicalAttack
  | noExploitation
deriving DecidableEq, Repr

/-- `KEVPolicy.should_mark_as_exploited` (lines 35-57): the
`apple_categories` argument is accepted but unused by the source body. -/
def shouldMarkAsExploited (platform : String) (cvePlatforms : List String)
    (isCisaKev : Bool) (_categories : List String) : Bool :=
  if platform ∈ cvePlatforms then true
  else if isCisaKev && decide (platform ∈ cvePlatforms) then true
  else false

/-- `KEVPolicy.get_exploitation_level` (lines 59-82). -/
def getExploitationLevel (platform : String) (cvePlatforms : List String)
    (isCisaKev : Bool) (categories : List String) : ExpLevel :=
  if shouldMarkAsExploited platform cvePlatforms isCisaKev categories then
    if "TARGETED_ATTACK" ∈ categories then .targetedAttack
    else if "PHYSICAL_ATTACK_EXPLOITED" ∈ categories then .physicalAttack
    else .activelyExploited
  else if cvePlatforms ≠ [] ∧ platform ∉ cvePlatforms then .exploitationWarning
  else .noExploitation

/-- `KEVPolicy.create_exploitation_note` (lines 84-111): the set
difference `cve_platforms - {platform}` is sorted with Python's string
order before joining. -/
def createExploitationNote (platform : String) (cvePlatforms : List String)
    (categories : List String) : Option String :=
  match getExploitationLevel platform cvePlatforms false categories with
  | .exploitationWarning =>
    let others := List.insertionSort pyStrLe
      (dedupKeepFirst (cvePlatforms.filter (· ≠ platform)))
    if others ≠ [] then
      some ("Known exploited on: " ++ String.intercalate ", " others)
    else none
  | .targetedAttack => some "Exploited in sophisticated targeted attacks"
  | .physicalAttack => some "Requires physical device access for exploitation"
  | _ => none

/-- The classification lists built by
`FeedEnrichmentPolicy.enrich_release_entry` (lines 117-168): CVEs of the
release absent from `exploitation_data` are skipped; each present CVE is
classified once and appended to the corresponding lists (targeted/physical
attacks are also appended to `actively_exploited`). -/
structure PolicyOut where
  activelyExploited : List String
  warnings : List (String × Option String)
  targeted : List String
  physical : List String
deriving Repr

/-- Classification of one CVE by its exploitation level: the lists the
loop body of `enrich_release_entry` appends it to (targeted/physical
attacks are also appended to `actively_exploited`). -/
def policyClassify (platform x : String) (d : CveExpData) : PolicyOut :=
  match getExploitationLevel platform d.platforms d.inCisaKev d.categories with
  | .activelyExploited => ⟨[x], [], [], []⟩
  | .exploitationWarning =>
    ⟨[], [(x, createExploitationNote platform d.platforms d.categories)], [], []⟩
  | .targetedAttack => ⟨[x], [], [x], []⟩
  | .physicalAttack => ⟨[x], [], [], [x]⟩
  | .noExploitation => ⟨[], [], [], []⟩

/-- The loop body: a CVE absent from `exploitation_data` contributes
nothing (`continue`). -/
def policyEntryOut (platform : String) (data : List (String × CveExpData))
    (x : String) : PolicyOut :=
  match List.lookup x data with
  | none => ⟨[], [], [], []⟩
  | some d => policyClassify platform x d

/-- Concatenate the contributions of two CVE ranges, preserving append
order. -/
def policyAppend (a b : PolicyOut) : PolicyOut :=
  ⟨a.activelyExploited ++ b.activelyExploited, a.warnings ++ b.warnings,
   a.targeted ++ b.targeted, a.physical ++ b.physical⟩

/-- The per-CVE loop of `enrich_release_entry`: each CVE of the release is
classified in order and its contribution appended. -/
def policyLoop (platform : String) (data : List (String × CveExpData)) :
    List String → PolicyOut
  | [] => ⟨[], [], [], []⟩
  | c :: cs => policyAppend (policyEntryOut platform data c) (policyLoop platform data cs)


/-! ### Detector lemmas -/

/-- The three Apple-text sources of the pattern table. -/
def isAppleSrc (s : ExpSource) : Prop :=
  s = .appleDirect ∨ s = .appleTargeted ∨ s = .appleVersionSpecific

theorem applyPat_exploited_src (matched : Bool) (src : ExpSource)
    (conf : ExpConfidence) (targeted physical : Bool) (mnotes : Option String)
    (info : ExpInfo) (hsrc : isAppleSrc src)
    (hinfo : info.isExploited = true → ∃ s ∈ info.sources, isAppleSrc s) :
    (applyPat matched src conf targeted physical mnotes info).isExploited = true →
      ∃ s ∈ (applyPat matched src conf targeted physical mnotes info).sources,
        isAppleSrc s := by
  unfold applyPat
  by_cases h : matched
  · simp only [if_pos h]
    intro _
    exact ⟨src, by simp, hsrc⟩
  · simp only [if_neg h]
    exact hinfo

theorem applyPat_src_mem (matched : Bool) (src : ExpSource) (conf : ExpConfidence)
    (targeted physical : Bool) (mnotes : Option String) (info : ExpInfo) :
    ∀ s ∈ (applyPat matched src conf targeted physical mnotes info).sources,
      s ∈ info.sources ∨ s = src := by
  unfold applyPat
  by_cases h : matched
  · simp only [if_pos h]
    intro s hs
    simpa using List.mem_append.mp hs
  · simp only [if_neg h]
    intro s hs
    exact Or.inl hs

theorem applyPatVs_exploited_src (vs : Option (String × String)) (info : ExpInfo)
    (hinfo : info.isExploited = true → ∃ s ∈ info.sources, isAppleSrc s) :
    (applyPatVs vs info).isExploited = true →
      ∃ s ∈ (applyPatVs vs info).sources, isAppleSrc s := by
  cases vs with
  | some p =>
    obtain ⟨os, ver⟩ := p
    intro _
    exact ⟨.appleVersionSpecific, by simp [applyPatVs], Or.inr (Or.inr rfl)⟩
  | none => exact hinfo

theorem applyPatVs_src_mem (vs : Option (String × String)) (info : ExpInfo) :
    ∀ s ∈ (applyPatVs vs info).sources, s ∈ info.sources ∨ isAppleSrc s := by
  cases vs with
  | some p =>
    obtain ⟨os, ver⟩ := p
    intro s hs
    simp only [applyPatVs, List.mem_append, List.mem_singleton] at hs
    rcases hs with hs | rfl
    · exact Or.inl hs
    · exact Or.inr (Or.inr (Or.inr rfl))
  | none => exact fun s hs => Or.inl hs

theorem applyAll_exploited_src (text : String) (info : ExpInfo)
    (hinfo : info.isExploited = true → ∃ s ∈ info.sources, isAppleSrc s) :
    (applyAllPatterns text info).isExploited = true →
      ∃ s ∈ (applyAllPatterns text info).sources, isAppleSrc s := by
  unfold applyAllPatterns
  refine applyPat_exploited_src _ _ _ _ _ _ _ (Or.inl rfl) ?_
  refine applyPat_exploited_src _ _ _ _ _ _ _ (Or.inl rfl) ?_
  refine applyPatVs_exploited_src _ _ ?_
  refine applyPat_exploited_src _ _ _ _ _ _ _ (Or.inr (Or.inl rfl)) ?_
  refine applyPat_exploited_src _ _ _ _ _ _ _ (Or.inl rfl) ?_
  exact applyPat_exploited_src _ _ _ _ _ _ _ (Or.inl rfl) hinfo

theorem applyAll_src_mem (text : String) (info : ExpInfo) :
    ∀ s ∈ (applyAllPatterns text info).sources, s ∈ info.sources ∨ isAppleSrc s := by
  unfold applyAllPatterns
  intro s hs
  rcases applyPat_src_mem _ _ _ _ _ _ _ _ hs with hs | rfl
  · rcases applyPat_src_mem _ _ _ _ _ _ _ _ hs with hs | rfl
    · rcases applyPatVs_src_mem _ _ _ hs with hs | hs
      · rcases applyPat_src_mem _ _ _ _ _ _ _ _ hs with hs | rfl
        · rcases applyPat_src_mem _ _ _ _ _ _ _ _ hs with hs | rfl
          · rcases applyPat_src_mem _ _ _ _ _ _ _ _ hs with hs | rfl
            · exact Or.inl hs
            · exact Or.inr (Or.inl rfl)
          · exact Or.inr (Or.inl rfl)
        · exact Or.inr (Or.inr (Or.inl rfl))
      · exact Or.inr hs
    · exact Or.inr (Or.inl rfl)
  · exact Or.inr (Or.inl rfl)

/-- A positive result of `detect_apple_exploitation` is exploited, cites at
least one Apple source, and cites only Apple sources. -/
theorem detectApple_spec (cveId text platform : String) (ai : ExpInfo)
    (h : detectAppleExploitation cveId text platform = some ai) :
    ai.isExploited = true ∧ (∃ s ∈ ai.sources, isAppleSrc s) ∧
      ∀ s ∈ ai.sources, isAppleSrc s := by
  unfold detectAppleExploitation at h
  by_cases hexp : (applyAllPatterns text (blankInfo cveId platform)).isExploited = true
  · rw [if_pos hexp] at h
    cases h
    refine ⟨hexp, applyAll_exploited_src _ _ (by simp [blankInfo]) hexp, ?_⟩
    intro s hs
    rcases applyAll_src_mem _ _ s hs with hs | hs
    · simp [blankInfo] at hs
    · exact hs
  · rw [if_neg hexp] at h
    cases h


theorem appleStep_cases (st : DetectorState) (cveId : String)
    (appleText : Option String) (platform : String) :
    (appleStep st cveId appleText platform).1 = blankInfo cveId platform ∨
    ∃ t ai, appleText = some t ∧ detectAppleExploitation cveId t platform = some ai ∧
      (appleStep st cveId appleText platform).1 = ai := by
  cases appleText with
  | none => exact Or.inl rfl
  | some t =>
    cases hdet : detectAppleExploitation cveId t platform with
    | none => exact Or.inl (by simp [appleStep, hdet])
    | some ai => exact Or.inr ⟨t, ai, rfl, hdet, by simp [appleStep, hdet]⟩

theorem appleStep_src_apple (st : DetectorState) (cveId : String)
    (appleText : Option String) (platform : String) :
    ∀ s ∈ (appleStep st cveId appleText platform).1.sources, isAppleSrc s := by
  rcases appleStep_cases st cveId appleText platform with h | ⟨t, ai, _, hdet, h⟩
  · rw [h]; intro s hs; simp [blankInfo] at hs
  · rw [h]; exact (detectApple_spec _ _ _ _ hdet).2.2

theorem cisaStep_src_mem (st : DetectorState) (cveId : String) (info1 : ExpInfo) :
    ∀ s ∈ (cisaStep st cveId info1).sources, s ∈ info1.sources ∨ s = .cisaKev := by
  unfold cisaStep
  by_cases hkev : cveId ∈ st.cisaKevs
  · simp only [if_pos hkev]
    by_cases hmem : ExpSource.cisaKev ∈ info1.sources
    · simp only [if_pos hmem]
      exact fun s hs => Or.inl hs
    · simp only [if_neg hmem]
      intro s hs
      simpa using List.mem_append.mp hs
  · simp only [if_neg hkev]
    exact fun s hs => Or.inl hs

theorem checkCross_spec (st : DetectorState) (cveId platform : String) (ci : ExpInfo)
    (h : checkCrossPlatformExploitation st cveId platform = some ci) :
    ∃ existing, List.lookup cveId st.appleExploited = some existing ∧
      platform ∉ existing.affectedPlatforms ∧
      ci = { cveId := cveId, isExploited := false, confidence := .medium,
             sources := [.crossPlatform], affectedPlatforms := [platform],
             notes := some ("Known exploited on: " ++
               String.intercalate ", " existing.affectedPlatforms) } := by
  unfold checkCrossPlatformExploitation at h
  split at h
  next ex heq =>
    split at h
    next hp =>
      injection h with h
      exact ⟨ex, heq, hp, h.symm⟩
    next hp => cases h
  next heq => cases h

theorem getStatus_snd (st : DetectorState) (cveId : String)
    (appleText : Option String) (platform : String) :
    (getExploitationStatus st cveId appleText platform).2 =
      (appleStep st cveId appleText platform).2 := by
  unfold getExploitationStatus
  dsimp only
  split
  · rfl
  · split <;> rfl

theorem getStatus_none_state (st : DetectorState) (cveId platform : String) :
    (getExploitationStatus st cveId none platform).2 = st := by
  rw [getStatus_snd]
  rfl

/-- Every exploited status record cites an Apple source or the CISA KEV
catalog. -/
theorem getStatus_exploited_has_evidence (st : DetectorState) (cveId : String)
    (appleText : Option String) (platform : String) :
    (getExploitationStatus st cveId appleText platform).1.isExploited = true →
      ∃ s ∈ (getExploitationStatus st cveId appleText platform).1.sources,
        isAppleSrc s ∨ s = .cisaKev := by
  unfold getExploitationStatus
  dsimp only
  split
  case isTrue hexp =>
    intro _
    unfold cisaStep at hexp ⊢
    by_cases hkev : cveId ∈ st.cisaKevs
    · simp only [if_pos hkev]
      by_cases hmem : ExpSource.cisaKev ∈ (appleStep st cveId appleText platform).1.sources
      · exact ⟨.cisaKev, by simp [hmem], Or.inr rfl⟩
      · exact ⟨.cisaKev, by simp [hmem], Or.inr rfl⟩
    · rw [if_neg hkev] at hexp ⊢
      rcases appleStep_cases st cveId appleText platform with h | ⟨t, ai, _, hdet, h⟩
      · rw [h] at hexp
        simp [blankInfo] at hexp
      · rw [h] at hexp ⊢
        obtain ⟨_, ⟨s, hs, happle⟩, _⟩ := detectApple_spec _ _ _ _ hdet
        exact ⟨s, hs, Or.inl happle⟩
  case isFalse hexp =>
    split
    case h_1 ci hcross =>
      intro habs
      obtain ⟨ex, _, _, rfl⟩ := checkCross_spec _ _ _ _ hcross
      cases habs
    case h_2 => exact fun habs => absurd habs hexp

/-- A status record citing `cross_platform` is never marked exploited. -/
theorem getStatus_cross_not_exploited (st : DetectorState) (cveId : String)
    (appleText : Option String) (platform : String) :
    ExpSource.crossPlatform ∈ (getExploitationStatus st cveId appleText platform).1.sources →
      (getExploitationStatus st cveId appleText platform).1.isExploited = false := by
  unfold getExploitationStatus
  dsimp only
  split
  case isTrue hexp =>
    intro hmem
    exfalso
    rcases cisaStep_src_mem st cveId _ _ hmem with hmem | h
    · have := appleStep_src_apple st cveId appleText platform _ hmem
      simp [isAppleSrc] at this
    · cases h
  case isFalse hexp =>
    split
    case h_1 ci hcross =>
      intro _
      obtain ⟨ex, _, _, rfl⟩ := checkCross_spec _ _ _ _ hcross
      rfl
    case h_2 => intro _; simpa using hexp


/-- C3: for every CVE in the loaded CISA KEV set, `get_exploitation_status`
returns a record that is exploited and cites `cisa_kev`; its confidence is
`confirmed` or `high`; when the Apple-text step did not set confidence to
`confirmed` the confidence is exactly `high`; and a pre-existing
`confirmed` confidence is kept. -/
theorem c3_cisa_membership_status (st : DetectorState) (cveId : String)
    (appleText : Option String) (platform : String)
    (hkev : cveId ∈ st.cisaKevs) :
    (getExploitationStatus st cveId appleText platform).1.isExploited = true ∧
    ExpSource.cisaKev ∈ (getExploitationStatus st cveId appleText platform).1.sources ∧
    ((getExploitationStatus st cveId appleText platform).1.confidence = .confirmed ∨
      (getExploitationStatus st cveId appleText platform).1.confidence = .high) ∧
    ((appleStep st cveId appleText platform).1.confidence ≠ .confirmed →
      (getExploitationStatus st cveId appleText platform).1.confidence = .high) ∧
    ((appleStep st cveId appleText platform).1.confidence = .confirmed →
      (getExploitationStatus st cveId appleText platform).1.confidence = .confirmed) := by
  have hinfo2 : (cisaStep st cveId (appleStep st cveId appleText platform).1).isExploited
      = true := by
    unfold cisaStep
    rw [if_pos hkev]
  have hres : getExploitationStatus st cveId appleText platform =
      (cisaStep st cveId (appleStep st cveId appleText platform).1,
        (appleStep st cveId appleText platform).2) := by
    unfold getExploitationStatus
    dsimp only
    rw [if_pos hinfo2]
  rw [hres]
  dsimp only
  unfold cisaStep
  rw [if_pos hkev]
  refine ⟨rfl, ?_, ?_, ?_, ?_⟩
  · by_cases hmem : ExpSource.cisaKev ∈ (appleStep st cveId appleText platform).1.sources
    · simp [hmem]
    · simp [hmem]
  · by_cases hconf : (appleStep st cveId appleText platform).1.confidence = .confirmed
    · left
      simp [hconf]
    · right
      simp [hconf]
  · intro h
    simp [h]
  · intro h
    simp [h]

/-- Witness for `c3_cisa_membership_status`: a KEV-listed CVE with no Apple
text on macOS. -/
theorem c3_cisa_membership_status_witness :
    (getExploitationStatus ⟨["CVE-2024-44308"], []⟩ "CVE-2024-44308" none "macOS").1.isExploited
        = true ∧
    ExpSource.cisaKev ∈
      (getExploitationStatus ⟨["CVE-2024-44308"], []⟩ "CVE-2024-44308" none "macOS").1.sources ∧
    ((getExploitationStatus ⟨["CVE-2024-44308"], []⟩ "CVE-2024-44308" none "macOS").1.confidence
          = .confirmed ∨
      (getExploitationStatus ⟨["CVE-2024-44308"], []⟩ "CVE-2024-44308" none "macOS").1.confidence
          = .high) ∧
    ((appleStep ⟨["CVE-2024-44308"], []⟩ "CVE-2024-44308" none "macOS").1.confidence
          ≠ .confirmed →
      (getExploitationStatus ⟨["CVE-2024-44308"], []⟩ "CVE-2024-44308" none "macOS").1.confidence
          = .high) ∧
    ((appleStep ⟨["CVE-2024-44308"], []⟩ "CVE-2024-44308" none "macOS").1.confidence
          = .confirmed →
      (getExploitationStatus ⟨["CVE-2024-44308"], []⟩ "CVE-2024-44308" none "macOS").1.confidence
          = .confirmed) :=
  c3_cisa_membership_status ⟨["CVE-2024-44308"], []⟩ "CVE-2024-44308" none "macOS"
    (by decide)


theorem enrichLoop_actively_spec (st : DetectorState) (platform : String)
    (cves : List String) :
    ∀ c ∈ (enrichLoop st platform cves).actively,
      (getExploitationStatus st c none platform).1.isExploited = true := by
  induction cves with
  | nil => intro c hc; simp [enrichLoop] at hc
  | cons x xs ih =>
    intro c hc
    simp only [enrichLoop, getStatus_none_state] at hc
    rcases List.mem_append.mp hc with hc | hc
    · by_cases hexp : (getExploitationStatus st x none platform).1.isExploited = true
      · simp only [if_pos hexp, List.mem_singleton] at hc
        subst hc
        exact hexp
      · simp [if_neg hexp] at hc
    · exact ih c hc

theorem shouldMark_iff (platform : String) (ps : List String) (cisa : Bool)
    (cats : List String) :
    shouldMarkAsExploited platform ps cisa cats = true ↔ platform ∈ ps := by
  unfold shouldMarkAsExploited
  by_cases h : platform ∈ ps
  · simp [h]
  · simp [h]

theorem level_not_warning_platform (platform : String) (ps : List String)
    (cisa : Bool) (cats : List String)
    (h : getExploitationLevel platform ps cisa cats ≠ .exploitationWarning ∧
      getExploitationLevel platform ps cisa cats ≠ .noExploitation) :
    platform ∈ ps := by
  obtain ⟨h1, h2⟩ := h
  unfold getExploitationLevel at h1 h2
  by_cases hm : shouldMarkAsExploited platform ps cisa cats = true
  · exact (shouldMark_iff platform ps cisa cats).mp hm
  · rw [if_neg hm] at h1 h2
    by_cases hw : ps ≠ [] ∧ platform ∉ ps
    · rw [if_pos hw] at h1
      exact absurd rfl h1
    · rw [if_neg hw] at h2
      exact absurd rfl h2

theorem level_warning_platform (platform : String) (ps : List String)
    (cisa : Bool) (cats : List String)
    (h : getExploitationLevel platform ps cisa cats = .exploitationWarning) :
    platform ∉ ps ∧ ps ≠ [] := by
  unfold getExploitationLevel at h
  by_cases hm : shouldMarkAsExploited platform ps cisa cats = true
  · rw [if_pos hm] at h
    by_cases ht : "TARGETED_ATTACK" ∈ cats
    · rw [if_pos ht] at h; cases h
    · rw [if_neg ht] at h
      by_cases hp : "PHYSICAL_ATTACK_EXPLOITED" ∈ cats
      · rw [if_pos hp] at h; cases h
      · rw [if_neg hp] at h; cases h
  · rw [if_neg hm] at h
    by_cases hw : ps ≠ [] ∧ platform ∉ ps
    · exact ⟨hw.2, hw.1⟩
    · rw [if_neg hw] at h; cases h

theorem policyClassify_actively (platform x : String) (d : CveExpData) (c : String) :
    c ∈ (policyClassify platform x d).activelyExploited →
      c = x ∧
      getExploitationLevel platform d.platforms d.inCisaKev d.categories ≠
        .exploitationWarning ∧
      platform ∈ d.platforms := by
  unfold policyClassify
  cases hlev : getExploitationLevel platform d.platforms d.inCisaKev d.categories with
  | activelyExploited =>
    intro h
    have h' : c ∈ [x] := h
    refine ⟨by simpa using h', by simp [hlev], ?_⟩
    exact level_not_warning_platform platform d.platforms d.inCisaKev d.categories
      (by simp [hlev])
  | exploitationWarning =>
    intro h
    exact absurd h (List.not_mem_nil c)
  | targetedAttack =>
    intro h
    have h' : c ∈ [x] := h
    refine ⟨by simpa using h', by simp [hlev], ?_⟩
    exact level_not_warning_platform platform d.platforms d.inCisaKev d.categories
      (by simp [hlev])
  | physicalAttack =>
    intro h
    have h' : c ∈ [x] := h
    refine ⟨by simpa using h', by simp [hlev], ?_⟩
    exact level_not_warning_platform platform d.platforms d.inCisaKev d.categories
      (by simp [hlev])
  | noExploitation =>
    intro h
    exact absurd h (List.not_mem_nil c)

theorem policyClassify_warnings (platform x : String) (d : CveExpData)
    (p : String × Option String) :
    p ∈ (policyClassify platform x d).warnings →
      p.1 = x ∧
      getExploitationLevel platform d.platforms d.inCisaKev d.categories =
        .exploitationWarning ∧
      platform ∉ d.platforms := by
  unfold policyClassify
  cases hlev : getExploitationLevel platform d.platforms d.inCisaKev d.categories with
  | activelyExploited => intro h; exact absurd h (List.not_mem_nil p)
  | exploitationWarning =>
    intro h
    have h' : p ∈ [(x, createExploitationNote platform d.platforms d.categories)] := h
    simp only [List.mem_singleton] at h'
    subst h'
    exact ⟨rfl, rfl, (level_warning_platform _ _ _ _ hlev).1⟩
  | targetedAttack => intro h; exact absurd h (List.not_mem_nil p)
  | physicalAttack => intro h; exact absurd h (List.not_mem_nil p)
  | noExploitation => intro h; exact absurd h (List.not_mem_nil p)

theorem policyEntryOut_actively (platform : String)
    (data : List (String × CveExpData)) (x c : String) :
    c ∈ (policyEntryOut platform data x).activelyExploited →
      ∃ d, List.lookup c data = some d ∧
        getExploitationLevel platform d.platforms d.inCisaKev d.categories ≠
          .exploitationWarning ∧
        platform ∈ d.platforms := by
  unfold policyEntryOut
  cases hl : List.lookup x data with
  | none => intro h; exact absurd h (List.not_mem_nil c)
  | some d =>
    intro h
    obtain ⟨rfl, hne, hplat⟩ := policyClassify_actively platform x d c h
    exact ⟨d, hl, hne, hplat⟩

theorem policyEntryOut_warnings (platform : String)
    (data : List (String × CveExpData)) (x : String) (p : String × Option String) :
    p ∈ (policyEntryOut platform data x).warnings →
      ∃ d, List.lookup p.1 data = some d ∧
        getExploitationLevel platform d.platforms d.inCisaKev d.categories =
          .exploitationWarning ∧
        platform ∉ d.platforms := by
  unfold policyEntryOut
  cases hl : List.lookup x data with
  | none => intro h; exact absurd h (List.not_mem_nil p)
  | some d =>
    intro h
    obtain ⟨hx, hlev, hplat⟩ := policyClassify_warnings platform x d p h
    rw [hx]
    exact ⟨d, hl, hlev, hplat⟩

theorem policyLoop_actively_mem (platform : String)
    (data : List (String × CveExpData)) (cves : List String) :
    ∀ c ∈ (policyLoop platform data cves).activelyExploited,
      ∃ d, List.lookup c data = some d ∧
        getExploitationLevel platform d.platforms d.inCisaKev d.categories ≠
          .exploitationWarning ∧
        platform ∈ d.platforms := by
  induction cves with
  | nil => intro c hc; simp [policyLoop] at hc
  | cons x xs ih =>
    intro c hc
    have hc' : c ∈ (policyEntryOut platform data x).activelyExploited ++
        (policyLoop platform data xs).activelyExploited := hc
    rcases List.mem_append.mp hc' with h | h
    · exact policyEntryOut_actively platform data x c h
    · exact ih c h

theorem policyLoop_warnings_mem (platform : String)
    (data : List (String × CveExpData)) (cves : List String) :
    ∀ p ∈ (policyLoop platform data cves).warnings,
      ∃ d, List.lookup p.1 data = some d ∧
        getExploitationLevel platform d.platforms d.inCisaKev d.categories =
          .exploitationWarning ∧
        platform ∉ d.platforms := by
  induction cves with
  | nil => intro p hp; simp [policyLoop] at hp
  | cons x xs ih =>
    intro p hp
    have hp' : p ∈ (policyEntryOut platform data x).warnings ++
        (policyLoop platform data xs).warnings := hp
    rcases List.mem_append.mp hp' with h | h
    · exact policyEntryOut_warnings platform data x p h
    · exact ih p h


/-- C2: (1) a CVE whose only evidence is exploitation recorded for other
platforms (no Apple-text detection, not in CISA KEV) yields exactly the
cross-platform record: `is_exploited=false`, `sources=[cross_platform]`,
`confidence=medium` and a non-empty `"Known exploited on: <platforms>"`
note; (2) every CVE in the enricher's `actively_exploited_cves` list has an
exploited status citing an Apple source or `cisa_kev`, and never cites
`cross_platform`; (3) under `FeedEnrichmentPolicy.enrich_release_entry` a
CVE enters `actively_exploited_cves` only when the current platform is
among its exploited platforms, and a cross-platform warning entry is never
also in `actively_exploited_cves`. -/
theorem c2_cross_platform_isolated :
    (∀ (st : DetectorState) (cveId : String) (appleText : Option String)
        (platform : String) (ei : ExpInfo),
      cveId ∉ st.cisaKevs →
      (∀ t, appleText = some t → detectAppleExploitation cveId t platform = none) →
      List.lookup cveId st.appleExploited = some ei →
      platform ∉ ei.affectedPlatforms →
      (getExploitationStatus st cveId appleText platform).1 =
        { cveId := cveId, isExploited := false, confidence := .medium,
          sources := [.crossPlatform], affectedPlatforms := [platform],
          notes := some ("Known exploited on: " ++
            String.intercalate ", " ei.affectedPlatforms) } ∧
      ("Known exploited on: " ++ String.intercalate ", " ei.affectedPlatforms) ≠ "") ∧
    (∀ (st : DetectorState) (platform : String) (cves : List String) (c : String),
      c ∈ (enrichLoop st platform cves).actively →
      (getExploitationStatus st c none platform).1.isExploited = true ∧
      (∃ s ∈ (getExploitationStatus st c none platform).1.sources,
        isAppleSrc s ∨ s = .cisaKev) ∧
      ExpSource.crossPlatform ∉ (getExploitationStatus st c none platform).1.sources) ∧
    (∀ (platform : String) (data : List (String × CveExpData)) (cves : List String)
        (c : String),
      (c ∈ (policyLoop platform data cves).activelyExploited →
        ∃ d, List.lookup c data = some d ∧ platform ∈ d.platforms) ∧
      (∀ n, (c, n) ∈ (policyLoop platform data cves).warnings →
        (∃ d, List.lookup c data = some d ∧ platform ∉ d.platforms) ∧
        c ∉ (policyLoop platform data cves).activelyExploited)) := by
  refine ⟨?_, ?_, ?_⟩
  · intro st cveId appleText platform ei hkev hdet hlook hplat
    have happle : appleStep st cveId appleText platform = (blankInfo cveId platform, st) := by
      cases appleText with
      | none => rfl
      | some t => simp [appleStep, hdet t rfl]
    have hcross : checkCrossPlatformExploitation st cveId platform =
        some { cveId := cveId, isExploited := false, confidence := .medium,
               sources := [.crossPlatform], affectedPlatforms := [platform],
               notes := some ("Known exploited on: " ++
                 String.intercalate ", " ei.affectedPlatforms) } := by
      simp [checkCrossPlatformExploitation, hlook, hplat]
    constructor
    · unfold getExploitationStatus
      dsimp only
      rw [happle]
      dsimp only
      have hblank : cisaStep st cveId (blankInfo cveId platform) =
          blankInfo cveId platform := by
        unfold cisaStep
        rw [if_neg hkev]
      rw [hblank]
      rw [if_neg (by simp [blankInfo])]
      rw [hcross]
    · intro habs
      have hd := congrArg String.data habs
      rw [String.data_append] at hd
      rcases List.append_eq_nil.mp hd with ⟨h1, _⟩
      exact absurd h1 (by decide)
  · intro st platform cves c hc
    have hexp := enrichLoop_actively_spec st platform cves c hc
    refine ⟨hexp, getStatus_exploited_has_evidence st c none platform hexp, ?_⟩
    intro hmem
    have hfalse := getStatus_cross_not_exploited st c none platform hmem
    rw [hexp] at hfalse
    cases hfalse
  · intro platform data cves c
    constructor
    · intro hc
      obtain ⟨d, hl, _, hplat⟩ := policyLoop_actively_mem platform data cves c hc
      exact ⟨d, hl, hplat⟩
    · intro n hw
      obtain ⟨d, hl, hlev, hplat⟩ := policyLoop_warnings_mem platform data cves (c, n) hw
      refine ⟨⟨d, hl, hplat⟩, ?_⟩
      intro hc
      obtain ⟨d', hl', hne, _⟩ := policyLoop_actively_mem platform data cves c hc
      rw [hl] at hl'
      injection hl' with h
      subst h
      exact hne hlev


/-- A concrete `ExploitationInfo` recording Apple-confirmed exploitation
on iOS, used by the C2 witness. -/
def iosSampleInfo : ExpInfo :=
  { cveId := "CVE-X", isExploited := true, confidence := .confirmed,
    sources := [.appleDirect], affectedPlatforms := ["iOS"] }

/-- Witness for `c2_cross_platform_isolated` at concrete detector states:
a CVE known exploited on iOS seen from macOS with no local signal, a
KEV-listed CVE in the enrichment loop, and a cross-platform warning in the
feed-policy classifier. -/
theorem c2_cross_platform_isolated_witness :
    ((getExploitationStatus ⟨[], [("CVE-X", iosSampleInfo)]⟩ "CVE-X" none "macOS").1 =
      { cveId := "CVE-X", isExploited := false, confidence := .medium,
        sources := [.crossPlatform], affectedPlatforms := ["macOS"],
        notes := some ("Known exploited on: " ++ String.intercalate ", " ["iOS"]) }) ∧
    ((getExploitationStatus ⟨["CVE-K"], []⟩ "CVE-K" none "macOS").1.isExploited = true ∧
      ExpSource.crossPlatform ∉
        (getExploitationStatus ⟨["CVE-K"], []⟩ "CVE-K" none "macOS").1.sources) ∧
    (∃ d, List.lookup "CVE-W"
        [("CVE-W", CveExpData.mk ["iOS"] true [])] = some d ∧ "macOS" ∉ d.platforms) ∧
    "CVE-W" ∉ (policyLoop "macOS" [("CVE-W", CveExpData.mk ["iOS"] true [])]
      ["CVE-W"]).activelyExploited := by
  obtain ⟨h1, h2, h3⟩ := c2_cross_platform_isolated
  refine ⟨?_, ?_, ?_, ?_⟩
  · exact (h1 ⟨[], [("CVE-X", iosSampleInfo)]⟩ "CVE-X" none "macOS" iosSampleInfo
      (by decide) (fun _ h => nomatch h) (by decide) (by decide)).1
  · have h := h2 ⟨["CVE-K"], []⟩ "macOS" ["CVE-K"] "CVE-K" (by decide)
    exact ⟨h.1, h.2.2⟩
  · exact ((h3 "macOS" [("CVE-W", CveExpData.mk ["iOS"] true [])] ["CVE-W"]
      "CVE-W").2 (some "Known exploited on: iOS") (by decide)).1
  · exact ((h3 "macOS" [("CVE-W", CveExpData.mk ["iOS"] true [])] ["CVE-W"]
      "CVE-W").2 (some "Known exploited on: iOS") (by decide)).2


/-! ### `KEVFetcher.enrich_cves_with_kev` (`kev_fetcher.py`, lines 169-194)

If the catalog cannot be loaded the input dict is returned unchanged;
otherwise every value already `True` is kept (`continue`) and a `False`
value is flipped to `True` exactly when `is_kev` reports membership in the
loaded KEV id set. -/

/-- `enrich_cves_with_kev`: `loadOk` is the result of
`load_kev_catalog()`; `kevSet` the loaded `self.kev_set`. -/
def enrichCvesWithKev (loadOk : Bool) (kevSet : List String)
    (cves : List (String × Bool)) : List (String × Bool) :=
  if ¬loadOk then cves
  else cves.map fun p => if p.2 then p else (p.1, decide (p.1 ∈ kevSet))

/-- C10: KEV enrichment is monotone and key-preserving: the output has
exactly the input keys in order; a `true` is never downgraded; a `false`
becomes `true` only for members of the loaded KEV set; and when the
catalog cannot be loaded the input map is returned unchanged. -/
theorem c10_enrich_kev_monotone (loadOk : Bool) (kevSet : List String)
    (cves : List (String × Bool)) :
    List.Forall₂
      (fun (a b : String × Bool) => a.1 = b.1 ∧ (b.2 = true → a.2 = true) ∧
        (a.2 = true → b.2 = true ∨ b.1 ∈ kevSet))
      (enrichCvesWithKev loadOk kevSet cves) cves ∧
    (loadOk = false → enrichCvesWithKev loadOk kevSet cves = cves) := by
  constructor
  · cases loadOk with
    | false =>
      have he : enrichCvesWithKev false kevSet cves = cves := by
        simp [enrichCvesWithKev]
      rw [he]
      clear he
      induction cves with
      | nil => exact List.Forall₂.nil
      | cons p ps ih => exact List.Forall₂.cons ⟨rfl, fun h => h, fun h => Or.inl h⟩ ih
    | true =>
      have he : enrichCvesWithKev true kevSet cves =
          cves.map fun p => if p.2 then p else (p.1, decide (p.1 ∈ kevSet)) := by
        simp [enrichCvesWithKev]
      rw [he]
      clear he
      induction cves with
      | nil => exact List.Forall₂.nil
      | cons p ps ih =>
        refine List.Forall₂.cons ?_ ih
        by_cases hp : p.2 = true
        · refine ⟨by simp [hp], fun _ => by simp [hp], fun _ => Or.inl hp⟩
        · have hp' : p.2 = false := by simpa using hp
          refine ⟨by simp [hp'], ?_, ?_⟩
          · intro h
            rw [hp'] at h
            cases h
          · intro h
            right
            have h2 : (p.1, decide (p.1 ∈ kevSet)).2 = true := by
              simpa [hp'] using h
            exact of_decide_eq_true h2
  · intro h
    subst h
    simp [enrichCvesWithKev]

/-- Witness for `c10_enrich_kev_monotone`: a loaded two-entry KEV set over
a three-key map. -/
theorem c10_enrich_kev_monotone_witness :
    List.Forall₂
      (fun (a b : String × Bool) => a.1 = b.1 ∧ (b.2 = true → a.2 = true) ∧
        (a.2 = true → b.2 = true ∨ b.1 ∈ ["CVE-A", "CVE-B"]))
      (enrichCvesWithKev true ["CVE-A", "CVE-B"]
        [("CVE-A", false), ("CVE-C", false), ("CVE-D", true)])
      [("CVE-A", false), ("CVE-C", false), ("CVE-D", true)] :=
  (c10_enrich_kev_monotone true ["CVE-A", "CVE-B"]
    [("CVE-A", false), ("CVE-C", false), ("CVE-D", true)]).1


/-! ### `RSSFeedGenerator.generate_feed` (`generate_rss_feeds.py`)

Per `OSVersion` block the generator adds one entry for `Latest` (when it
has a `ProductVersion`) and one entry per element of
`SecurityReleases[:20]` that has a `ProductVersion` (lines 244-256). -/

/-- The fields of a v1 release entry the RSS generator keys on.  A missing
or empty `ProductVersion` (Python falsiness of `release.get(...)`) is
modelled as the empty string. -/
structure RssRel where
  productVersion : String
deriving DecidableEq, Repr

/-- One `OSVersions` block as read back from a v1 feed: `Latest` is
`none` when absent or empty (`latest and latest.get("ProductVersion")`). -/
structure RssBlock where
  latest : Option RssRel
  securityReleases : List RssRel

/-- The channel items generated from a block's `SecurityReleases` list:
`releases[:20]` filtered to entries with a `ProductVersion`. -/
def rssReleaseEntries (b : RssBlock) : List RssRel :=
  (b.securityReleases.take 20).filter fun r => r.productVersion ≠ ""

/-- All channel items of one `OSVersion` block: the `Latest` entry (when
present with a version) followed by the release-list entries. -/
def rssBlockEntries (b : RssBlock) : List RssRel :=
  (match b.latest with
   | some l => if l.productVersion ≠ "" then [l] else []
   | none => []) ++ rssReleaseEntries b

/-- The whole channel: entries of every block in order. -/
def rssChannelEntries (blocks : List RssBlock) : List RssRel :=
  blocks.flatMap rssBlockEntries

/-- C9: for every `OSVersion` block, the RSS channel contains at most 20
items drawn from that block's release list, and each of them is an element
of that list.  (The single `Latest` item of a block is built from the
separate `Latest` object, not drawn from `SecurityReleases`.) -/
theorem c9_rss_at_most_20_per_block (b : RssBlock) :
    (rssReleaseEntries b).length ≤ 20 ∧
    ∀ r ∈ rssReleaseEntries b, r ∈ b.securityReleases := by
  constructor
  · calc (rssReleaseEntries b).length
        ≤ (b.securityReleases.take 20).length := List.length_filter_le _ _
      _ ≤ 20 := by simp [List.length_take]
  · intro r hr
    have h1 : r ∈ b.securityReleases.take 20 := List.mem_of_mem_filter hr
    exact List.mem_of_mem_take h1


/-! ### `CompleteFeedBuilder._find_gdmf_match` (`build_complete_feeds.py`,
lines 236-340)

Assets are collected from `PublicAssetSets` then `AssetSets` under the
search key (watchOS/tvOS live under `iOS` and are pre-filtered by device
prefix at collection time), then a platform-specific device-prefix filter
selects the assets to merge (falling back to all matches when it selects
none), and devices/builds are merged from that selection. -/

/-- A GDMF asset as the merger reads it (`dict.get` with defaults:
`Build`/`ExpirationDate` may be absent). -/
structure GdmfAsset where
  ProductVersion : String
  Build : Option String
  SupportedDevices : List String
  ExpirationDate : Option String
deriving DecidableEq, Repr

/-- The GDMF payload: platform key to asset list, for both asset-set
dicts. -/
structure GdmfData where
  PublicAssetSets : List (String × List GdmfAsset)
  AssetSets : List (String × List GdmfAsset)
deriving Repr

/-- Python `d.startswith((p1, p2, ...))` over a device list with `any`. -/
def anyStartsWith (devs pfxs : List String) : Bool :=
  devs.any fun d => pfxs.any fun p => pyStartsWith d p

/-- Whether an asset is collected into `all_matches` (lines 250-265):
strict `ProductVersion` equality, and for watchOS/tvOS also the
Watch/AppleTV device check applied at collection time. -/
def assetMatches (osKey version : String) (a : GdmfAsset) : Bool :=
  a.ProductVersion == version &&
  (if osKey == "watchOS" then
    !a.SupportedDevices.isEmpty && anyStartsWith a.SupportedDevices ["Watch"]
   else if osKey == "tvOS" then
    !a.SupportedDevices.isEmpty && anyStartsWith a.SupportedDevices ["AppleTV"]
   else true)

/-- watchOS and tvOS assets are stored under the `iOS` key (lines
244-248). -/
def searchKeyFor (osKey : String) : String :=
  if osKey == "watchOS" || osKey == "tvOS" then "iOS" else osKey

/-- `all_matches`: matching assets of `PublicAssetSets` then `AssetSets`
in collection order. -/
def allMatchesFor (osKey version : String) (g : GdmfData) : List GdmfAsset :=
  ((List.lookup (searchKeyFor osKey) g.PublicAssetSets).getD []).filter
      (assetMatches osKey version) ++
    ((List.lookup (searchKeyFor osKey) g.AssetSets).getD []).filter
      (assetMatches osKey version)

/-- The device prefixes of the per-platform filter (lines 270-303); an OS
key with no branch leaves `filtered_matches` empty. -/
def devFilterPfxs (osKeyLower : String) : List String :=
  if osKeyLower == "ios" then ["iPhone", "iPad"]
  else if osKeyLower == "tvos" then ["AppleTV"]
  else if osKeyLower == "watchos" then ["Watch"]
  else if osKeyLower == "visionos" then ["RealityDevice"]
  else if osKeyLower == "macos" then ["Mac", "MacBook"]
  else []

/-- `filtered_matches`: matches whose device list is non-empty and contains
a device with one of the platform's prefixes. -/
def filteredMatchesFor (osKey : String) (all : List GdmfAsset) : List GdmfAsset :=
  all.filter fun m =>
    !m.SupportedDevices.isEmpty &&
      anyStartsWith m.SupportedDevices (devFilterPfxs (pyToLower osKey))

/-- `matches_to_merge = filtered_matches if filtered_matches else
all_matches` (line 306). -/
def matchesToMerge (osKey version : String) (g : GdmfData) : List GdmfAsset :=
  let filtered := filteredMatchesFor osKey (allMatchesFor osKey version g)
  if filtered.isEmpty then allMatchesFor osKey version g else filtered

/-- The merged dict returned by `_find_gdmf_match`: a copy of the first
merged asset with `SupportedDevices` and `AllBuilds` overwritten. -/
structure MergedMatch where
  ProductVersion : String
  Build : Option String
  ExpirationDate : Option String
  SupportedDevices : List String
  AllBuilds : List String
deriving DecidableEq, Repr

/-- The build-collection loop (lines 327-331): appends each truthy,
not-yet-seen `Build`. -/
def collectBuilds : List GdmfAsset → List String → List String
  | [], acc => acc
  | m :: ms, acc =>
    match m.Build with
    | some b =>
      if b ≠ "" ∧ b ∉ acc then collectBuilds ms (acc ++ [b])
      else collectBuilds ms acc
    | none => collectBuilds ms acc

/-- `CompleteFeedBuilder._find_gdmf_match`. -/
def findGdmfMatch (osKey version : String) (g : GdmfData) : Option MergedMatch :=
  if (allMatchesFor osKey version g).isEmpty then none
  else
    match matchesToMerge osKey version g with
    | [] => none
    | first :: rest =>
      some { ProductVersion := first.ProductVersion
             Build := first.Build
             ExpirationDate := first.ExpirationDate
             SupportedDevices :=
               dedupLoop [] [] ((first :: rest).flatMap (·.SupportedDevices))
             AllBuilds := List.insertionSort pyStrLe (collectBuilds (first :: rest) []) }

/-- The representative `Build` written to the feed by `create_legacy_feed`
(lines 606-614 and 744-752): first entry of `AllBuilds` when non-empty,
else the scraped build, else the merged `Build`. -/
def repBuild (gm : Option MergedMatch) (relBuild : Option String) : String :=
  let allBuilds := (gm.map (·.AllBuilds)).getD []
  if allBuilds ≠ [] then allBuilds.headD ""
  else if (relBuild.getD "") ≠ "" then relBuild.getD ""
  else
    match gm with
    | some m => m.Build.getD ""
    | none => ""

theorem collectBuilds_mem (ms : List GdmfAsset) :
    ∀ acc b, b ∈ collectBuilds ms acc ↔
      b ∈ acc ∨ ∃ m ∈ ms, m.Build = some b ∧ b ≠ "" := by
  induction ms with
  | nil => intro acc b; simp [collectBuilds]
  | cons m ms ih =>
    intro acc b
    cases hb : m.Build with
    | none =>
      simp only [collectBuilds, hb, ih, List.mem_cons]
      constructor
      · rintro (h | ⟨m', hm', hsome, hne⟩)
        · exact Or.inl h
        · exact Or.inr ⟨m', Or.inr hm', hsome, hne⟩
      · rintro (h | ⟨m', hm' | hm', hsome, hne⟩)
        · exact Or.inl h
        · subst hm'
          rw [hb] at hsome
          cases hsome
        · exact Or.inr ⟨m', hm', hsome, hne⟩
    | some b0 =>
      by_cases hcond : b0 ≠ "" ∧ b0 ∉ acc
      · simp only [collectBuilds, hb, if_pos hcond, ih, List.mem_append,
          List.mem_singleton, List.mem_cons]
        constructor
        · rintro ((h | rfl | h0) | ⟨m', hm', hsome, hne⟩)
          · exact Or.inl h
          · exact Or.inr ⟨m, Or.inl rfl, hb, hcond.1⟩
          · exact absurd h0 (List.not_mem_nil b)
          · exact Or.inr ⟨m', Or.inr hm', hsome, hne⟩
        · rintro (h | ⟨m', hm' | hm', hsome, hne⟩)
          · exact Or.inl (Or.inl h)
          · subst hm'
            rw [hb] at hsome
            injection hsome with hsome
            exact Or.inl (Or.inr (Or.inl hsome.symm))
          · exact Or.inr ⟨m', hm', hsome, hne⟩
      · simp only [collectBuilds, hb, if_neg hcond, ih]
        constructor
        · rintro (h | ⟨m', hm', hsome, hne⟩)
          · exact Or.inl h
          · exact Or.inr ⟨m', List.mem_cons_of_mem m hm', hsome, hne⟩
        · rintro (h | ⟨m', hm', hsome, hne⟩)
          · exact Or.inl h
          · rcases List.mem_cons.mp hm' with rfl | hm'
            · rw [hb] at hsome
              injection hsome with hsome
              subst hsome
              rcases Decidable.not_and_iff_or_not.mp hcond with hc | hc
              · exact absurd hne (by simpa using hc)
              · exact Or.inl (by simpa using hc)
            · exact Or.inr ⟨m', hm', hsome, hne⟩

theorem collectBuilds_nodup (ms : List GdmfAsset) :
    ∀ acc : List String, acc.Nodup → (collectBuilds ms acc).Nodup := by
  induction ms with
  | nil => intro acc h; simpa [collectBuilds] using h
  | cons m ms ih =>
    intro acc hacc
    cases hb : m.Build with
    | none => simpa [collectBuilds, hb] using ih acc hacc
    | some b0 =>
      by_cases hcond : b0 ≠ "" ∧ b0 ∉ acc
      · simp only [collectBuilds, hb, if_pos hcond]
        refine ih _ ?_
        simpa [List.nodup_append] using ⟨hacc, hcond.2⟩
      · simpa [collectBuilds, hb, if_neg hcond] using ih acc hacc


/-- One concrete GDMF payload for the C4 counterexample: two iOS assets of
the same `ProductVersion`, one of which only lists an iPod device. -/
def c4Gdmf : GdmfData :=
  ⟨[("iOS",
     [⟨"18.2", some "22B1", ["iPod9,1"], some "2025-01-01"⟩,
      ⟨"18.2", some "22B2", ["iPhone15,2"], some "2026-01-01"⟩])], []⟩

/-- C4 counterexample: for iOS 18.2 both assets match on `ProductVersion`,
but the device-prefix filter (iPhone/iPad) drops the iPod-only asset, so
the merged `SupportedDevices` is `["iPhone15,2"]` rather than the
first-seen dedup `["iPod9,1", "iPhone15,2"]` of all matching assets'
devices, `AllBuilds` misses `22B1`, and `ExpirationDate` comes from the
surviving asset rather than the first matching asset. -/
theorem c4_counterexample :
    (findGdmfMatch "iOS" "18.2" c4Gdmf).map (·.SupportedDevices) =
      some ["iPhone15,2"] ∧
    dedupKeepFirst ((allMatchesFor "iOS" "18.2" c4Gdmf).flatMap (·.SupportedDevices)) =
      ["iPod9,1", "iPhone15,2"] ∧
    (["iPhone15,2"] : List String) ≠ ["iPod9,1", "iPhone15,2"] ∧
    (findGdmfMatch "iOS" "18.2" c4Gdmf).map (·.AllBuilds) = some ["22B2"] ∧
    (findGdmfMatch "iOS" "18.2" c4Gdmf).map (·.ExpirationDate) =
      some (some "2026-01-01") ∧
    (allMatchesFor "iOS" "18.2" c4Gdmf).head?.map (·.ExpirationDate) =
      some (some "2025-01-01") := by
  refine ⟨by decide, by decide, by decide, by decide, by decide, by decide⟩

/-- C4 (amended): when `_find_gdmf_match` returns a merged entry, the
merge is taken over `matches_to_merge` — the device-prefix-filtered subset
of the matching assets, or all matching assets when the filter selects
none — and over that subset the claim's description holds:
`SupportedDevices` is the concatenation of the subset's device lists with
duplicates removed preserving first-seen order, `AllBuilds` is the sorted
list of the subset's distinct non-empty `Build` values, the representative
`Build` written to the feed is the first entry of sorted `AllBuilds`
whenever `AllBuilds` is non-empty, and `ExpirationDate` (and the merged
entry's own `Build` field) are taken from the first asset of the
subset. -/
theorem c4_gdmf_merge_amended (osKey version : String) (g : GdmfData)
    (merged : MergedMatch) (h : findGdmfMatch osKey version g = some merged) :
    merged.SupportedDevices =
      dedupKeepFirst ((matchesToMerge osKey version g).flatMap (·.SupportedDevices)) ∧
    matchesToMerge osKey version g ≠ [] ∧
    (∀ first, (matchesToMerge osKey version g).head? = some first →
      merged.ExpirationDate = first.ExpirationDate ∧
      merged.Build = first.Build ∧
      merged.ProductVersion = first.ProductVersion) ∧
    List.Pairwise pyStrLe merged.AllBuilds ∧
    merged.AllBuilds.Nodup ∧
    (∀ b, b ∈ merged.AllBuilds ↔
      ∃ m ∈ matchesToMerge osKey version g, m.Build = some b ∧ b ≠ "") ∧
    (merged.AllBuilds ≠ [] →
      ∀ rb, repBuild (some merged) rb = merged.AllBuilds.headD "") := by
  unfold findGdmfMatch at h
  by_cases hall : (allMatchesFor osKey version g).isEmpty
  · rw [if_pos hall] at h
    cases h
  · rw [if_neg hall] at h
    cases hmtm : matchesToMerge osKey version g with
    | nil =>
      rw [hmtm] at h
      cases h
    | cons first rest =>
      rw [hmtm] at h
      have h' : some
          { ProductVersion := first.ProductVersion
            Build := first.Build
            ExpirationDate := first.ExpirationDate
            SupportedDevices :=
              dedupLoop [] [] ((first :: rest).flatMap (·.SupportedDevices))
            AllBuilds :=
              List.insertionSort pyStrLe (collectBuilds (first :: rest) []) } =
          some merged := h
      injection h' with h2
      subst h2
      dsimp only
      refine ⟨?_, by simp, ?_, ?_, ?_, ?_, ?_⟩
      · exact dedupLoop_eq_dedupKeepFirst _
      · intro f hf
        injection hf with hf
        subst hf
        exact ⟨rfl, rfl, rfl⟩
      · exact List.sorted_insertionSort pyStrLe _
      · exact ((List.perm_insertionSort pyStrLe _).nodup_iff).mpr
          (collectBuilds_nodup _ [] List.nodup_nil)
      · intro b
        rw [(List.perm_insertionSort pyStrLe (collectBuilds (first :: rest) [])).mem_iff]
        rw [collectBuilds_mem]
        simp
      · intro hne rb
        unfold repBuild
        dsimp only
        rw [if_pos ?_]
        · exact (Option.map_some' _ _ ▸ rfl)
        · exact hne

/-- The S6 scenario: three assets of version 18.2 with device sets
`{A,B}`, `{B,C}`, `{C,D}` and builds `22D51`/`22D50`/`22D51` (none of the
device names carries a recognized platform prefix, so all matches are
merged). -/
def s6Gdmf : GdmfData :=
  ⟨[("iOS",
     [⟨"18.2", some "22D51", ["A", "B"], some "2025-06-01"⟩,
      ⟨"18.2", some "22D50", ["B", "C"], none⟩,
      ⟨"18.2", some "22D51", ["C", "D"], none⟩])], []⟩

/-- The merged entry produced for `s6Gdmf`. -/
def s6Merged : MergedMatch :=
  ⟨"18.2", some "22D51", some "2025-06-01", ["A", "B", "C", "D"],
   ["22D50", "22D51"]⟩

/-- Witness for `c4_gdmf_merge_amended` at the S6 scenario:
`SupportedDevices=[A,B,C,D]` in first-seen order, `AllBuilds=[22D50,22D51]`
sorted and duplicate-free, and the representative build `22D50`. -/
theorem c4_gdmf_merge_amended_witness :
    s6Merged.SupportedDevices =
      dedupKeepFirst ((matchesToMerge "iOS" "18.2" s6Gdmf).flatMap (·.SupportedDevices)) ∧
    List.Pairwise pyStrLe s6Merged.AllBuilds ∧
    s6Merged.AllBuilds.Nodup ∧
    repBuild (some s6Merged) none = "22D50" := by
  have hfind : findGdmfMatch "iOS" "18.2" s6Gdmf = some s6Merged := by decide
  have h := c4_gdmf_merge_amended "iOS" "18.2" s6Gdmf s6Merged hfind
  refine ⟨h.1, h.2.2.2.1, h.2.2.2.2.1, ?_⟩
  have hrep := h.2.2.2.2.2.2 (by decide) none
  rw [hrep]
  decide


/-! ### `CompleteFeedBuilder.create_legacy_feed` per-`OSVersion` assembly
(`build_complete_feeds.py`, lines 696-811; the macOS branch at lines
551-673 is identical in these respects, with `target_major` taken from the
last word of the config name)

Date formatting (`_format_date`) and date parsing inside
`_calculate_days_since_previous` are abstracted as function parameters
(`fmtDate`, `parseDate` in days since an arbitrary epoch): both are used
identically on both sides of every property proved here, so no claim
depends on their internals. -/

/-- A scraped release record as read from the enriched
`security_releases` JSON. -/
structure Scraped where
  version : Option String
  title : String
  url : String
  releaseDate : String
  build : Option String
  cves : List String
  activelyExploited : List String
deriving DecidableEq, Repr

/-- The `Latest` object of a v1 `OSVersion` block. -/
structure LatestEntry where
  ProductVersion : String
  Build : String
  AllBuilds : List String
  ReleaseDate : String
  ExpirationDate : String
  SupportedDevices : List String
  SecurityInfo : String
  CVEs : List (String × Bool)
  ActivelyExploitedCVEs : List String
  UniqueCVEsCount : Nat
deriving DecidableEq, Repr

/-- A `SecurityReleases` entry of a v1 `OSVersion` block.  Note the entry
carries no `Build`/`AllBuilds`/`ExpirationDate` key. -/
structure SREntry where
  UpdateName : String
  ProductName : String
  ProductVersion : String
  ReleaseDate : String
  ReleaseType : String
  SecurityInfo : String
  SupportedDevices : List String
  CVEs : List (String × Bool)
  ActivelyExploitedCVEs : List String
  UniqueCVEsCount : Nat
  DaysSincePreviousRelease : Int
deriving DecidableEq, Repr

/-- One assembled `OSVersion` block. -/
structure OsVersionData where
  OSVersion : String
  Latest : Option LatestEntry
  SecurityReleases : List SREntry
deriving Repr

/-- Python `"a.b.c".split(".")` on characters. -/
def splitOnChar (sep : Char) : List Char → List (List Char)
  | [] => [[]]
  | c :: cs =>
    if c = sep then [] :: splitOnChar sep cs
    else
      match splitOnChar sep cs with
      | [] => [[c]]
      | g :: gs => (c :: g) :: gs

/-- Numeric value of a digit string (Python `int` on the all-digit
components of a release version). -/
def natOfDigits (cs : List Char) : Nat :=
  cs.foldl (fun a c => a * 10 + (c.toNat - 48)) 0

/-- `packaging.version.parse` on a plain dotted numeric version: the tuple
of integer components. -/
def parseVer (s : String) : List Nat :=
  (splitOnChar '.' s.data).map natOfDigits

/-- packaging's release comparison key drops trailing zero components
(`"1.0" == "1"`). -/
def stripTrailZeros (l : List Nat) : List Nat :=
  (l.reverse.dropWhile (· = 0)).reverse

/-- The sort key `pkg_version.parse(r.get("version", "0"))`. -/
def scrapedVerKey (r : Scraped) : List Nat :=
  stripTrailZeros (parseVer (r.version.getD "0"))

/-- The relation of `matching_releases.sort(key=..., reverse=True)`:
`a` precedes `b` when `b`'s version key is at most `a`'s. -/
def newerRel (a b : Scraped) : Prop :=
  natLexLeB (scrapedVerKey b) (scrapedVerKey a) = true

instance : DecidableRel newerRel := fun a b =>
  inferInstanceAs (Decidable (natLexLeB (scrapedVerKey b) (scrapedVerKey a) = true))

instance : IsTotal Scraped newerRel :=
  ⟨fun a b => natLexLeB_total (scrapedVerKey b) (scrapedVerKey a)⟩

instance : IsTrans Scraped newerRel :=
  ⟨fun _ _ _ hab hbc => natLexLeB_trans hbc hab⟩

/-- The releases of the block: version present, truthy, and starting with
`major ++ "."` (lines 711-718). -/
def matchingReleases (major : String) (releases : List Scraped) : List Scraped :=
  releases.filter fun r =>
    match r.version with
    | some v => v ≠ "" && pyStartsWith v (major ++ ".")
    | none => false

/-- `matching_releases` sorted newest first by parsed version
(lines 721-726). -/
def sortedReleases (major : String) (releases : List Scraped) : List Scraped :=
  List.insertionSort newerRel (matchingReleases major releases)

/-- The `Latest` object built from the newest matching release
(lines 728-765). -/
def mkLatestEntry (osType : String) (fmtDate : String → String) (g : GdmfData)
    (rel : Scraped) (v : String) : LatestEntry :=
  let gm := findGdmfMatch osType v g
  let cvesDict := (dedupKeepFirst rel.cves).map fun c =>
    (c, decide (c ∈ rel.activelyExploited))
  { ProductVersion := v
    Build := repBuild gm rel.build
    AllBuilds := (gm.map (·.AllBuilds)).getD []
    ReleaseDate := fmtDate rel.releaseDate
    ExpirationDate := (gm.bind (·.ExpirationDate)).getD ""
    SupportedDevices := (gm.map (·.SupportedDevices)).getD []
    SecurityInfo := rel.url
    CVEs := cvesDict
    ActivelyExploitedCVEs := rel.activelyExploited
    UniqueCVEsCount := cvesDict.length }

/-- One `SecurityReleases` entry (lines 767-801): the CVE map starts all
`False` and is enriched with KEV data only. -/
def mkSREntry (osType : String) (fmtDate : String → String) (g : GdmfData)
    (kevOk : Bool) (kevSet : List String) (rel : Scraped) (v : String) : SREntry :=
  let gm := findGdmfMatch osType v g
  let relCves := enrichCvesWithKev kevOk kevSet
    ((dedupKeepFirst rel.cves).map fun c => (c, false))
  { UpdateName := rel.title
    ProductName := osType
    ProductVersion := v
    ReleaseDate := fmtDate rel.releaseDate
    ReleaseType := "OS"
    SecurityInfo := rel.url
    SupportedDevices := (gm.map (·.SupportedDevices)).getD []
    CVEs := relCves
    ActivelyExploitedCVEs := (relCves.filter (·.2)).map (·.1)
    UniqueCVEsCount := relCves.length
    DaysSincePreviousRelease := 0 }

/-- The `SecurityReleases` list built from the sorted matching releases. -/
def mkSecurityReleases (osType : String) (fmtDate : String → String)
    (g : GdmfData) (kevOk : Bool) (kevSet : List String)
    (sorted : List Scraped) : List SREntry :=
  sorted.filterMap fun rel =>
    rel.version.bind fun rv =>
      if rv = "" then none
      else some (mkSREntry osType fmtDate g kevOk kevSet rel rv)


/-- Python dict assignment for the `days_map` dict. -/
def assocSetDays (m : List (String × Int)) (k : String) (v : Int) :
    List (String × Int) :=
  if m.any (fun p => p.1 = k) then m.map fun p => if p.1 = k then (k, v) else p
  else m ++ [(k, v)]

/-- The `(release, parsed_date)` pairs of
`_calculate_days_since_previous` (releases whose date fails to parse are
skipped). -/
def datedReleases (parseDate : String → Option Int) (srs : List SREntry) :
    List (SREntry × Int) :=
  srs.filterMap fun sr => (parseDate sr.ReleaseDate).map fun d => (sr, d)

/-- `dated_releases.sort(key=lambda x: x[1], reverse=True)`. -/
def dateDescRel (a b : SREntry × Int) : Prop := b.2 ≤ a.2

instance : DecidableRel dateDescRel := fun a b =>
  inferInstanceAs (Decidable (b.2 ≤ a.2))

/-- The walk building `days_map`: each release maps to the day difference
to the next older one, the oldest to 0. -/
def daysLoop : List (SREntry × Int) → List (String × Int) → List (String × Int)
  | [], m => m
  | [(sr, _)], m => assocSetDays m sr.ProductVersion 0
  | (sr, d) :: (sr2, d2) :: rest, m =>
    daysLoop ((sr2, d2) :: rest) (assocSetDays m sr.ProductVersion (d - d2))

/-- `CompleteFeedBuilder._calculate_days_since_previous` (lines 945-991),
with date parsing abstracted to days since an epoch. -/
def calcDaysMap (parseDate : String → Option Int) (srs : List SREntry) :
    List (String × Int) :=
  daysLoop (List.insertionSort dateDescRel (datedReleases parseDate srs)) []

/-- Overwrite one entry's day count from the days map (lines 804-809). -/
def updateDaysEntry (m : List (String × Int)) (sr : SREntry) : SREntry :=
  match List.lookup sr.ProductVersion m with
  | some dv => { sr with DaysSincePreviousRelease := dv }
  | none => sr

/-- Recompute the `DaysSincePreviousRelease` fields of the assembled
entries. -/
def applyDaysMap (parseDate : String → Option Int) (srs : List SREntry) :
    List SREntry :=
  srs.map (updateDaysEntry (calcDaysMap parseDate srs))

/-- The per-`OSVersion` assembly of `create_legacy_feed` for one
configured block: filter the scraped releases to the major version, sort
newest first, build `Latest` from the head and one `SecurityReleases`
entry per release, then fill in the day differences. -/
def buildOsVersionData (osType major : String) (releases : List Scraped)
    (g : GdmfData) (kevOk : Bool) (kevSet : List String)
    (fmtDate : String → String) (parseDate : String → Option Int) :
    OsVersionData :=
  match sortedReleases major releases with
  | [] => ⟨major, none, []⟩
  | release :: rest =>
    match release.version with
    | some v =>
      if v ≠ "" then
        ⟨major, some (mkLatestEntry osType fmtDate g release v),
         applyDaysMap parseDate
           (mkSecurityReleases osType fmtDate g kevOk kevSet (release :: rest))⟩
      else ⟨major, none, []⟩
    | none => ⟨major, none, []⟩

/-- The newest-first order on assembled entries, by parsed
`ProductVersion`. -/
def srNewerRel (a b : SREntry) : Prop :=
  natLexLeB (stripTrailZeros (parseVer b.ProductVersion))
    (stripTrailZeros (parseVer a.ProductVersion)) = true

theorem updateDaysEntry_fields (m : List (String × Int)) (sr : SREntry) :
    (updateDaysEntry m sr).ProductVersion = sr.ProductVersion ∧
    (updateDaysEntry m sr).ReleaseDate = sr.ReleaseDate ∧
    (updateDaysEntry m sr).SecurityInfo = sr.SecurityInfo ∧
    (updateDaysEntry m sr).SupportedDevices = sr.SupportedDevices ∧
    (updateDaysEntry m sr).CVEs = sr.CVEs ∧
    (updateDaysEntry m sr).ActivelyExploitedCVEs = sr.ActivelyExploitedCVEs := by
  unfold updateDaysEntry
  cases List.lookup sr.ProductVersion m with
  | none => exact ⟨rfl, rfl, rfl, rfl, rfl, rfl⟩
  | some dv => exact ⟨rfl, rfl, rfl, rfl, rfl, rfl⟩

theorem pairwise_filterMap_transfer {α β : Type} (R : α → α → Prop)
    (S : β → β → Prop) (f : α → Option β) (l : List α)
    (hR : List.Pairwise R l)
    (h : ∀ a b x y, R a b → f a = some x → f b = some y → S x y) :
    List.Pairwise S (l.filterMap f) := by
  induction l with
  | nil => simp
  | cons a l ih =>
    rw [List.pairwise_cons] at hR
    obtain ⟨ha, hl⟩ := hR
    cases hf : f a with
    | none =>
      rw [List.filterMap_cons_none hf]
      exact ih hl
    | some x =>
      rw [List.filterMap_cons_some hf]
      refine List.Pairwise.cons ?_ (ih hl)
      intro y hy
      obtain ⟨b, hb, hfb⟩ := List.mem_filterMap.mp hy
      exact h a b x y (ha b hb) hf hfb

theorem mkSecurityReleases_entry (osType : String) (fmtDate : String → String)
    (g : GdmfData) (kevOk : Bool) (kevSet : List String) (rel : Scraped)
    (sr : SREntry)
    (h : (rel.version.bind fun rv =>
        if rv = "" then none
        else some (mkSREntry osType fmtDate g kevOk kevSet rel rv)) = some sr) :
    rel.version = some sr.ProductVersion := by
  cases hv : rel.version with
  | none => rw [hv] at h; cases h
  | some rv =>
    rw [hv] at h
    have h' : (if rv = "" then none
        else some (mkSREntry osType fmtDate g kevOk kevSet rel rv)) = some sr := h
    by_cases hrv : rv = ""
    · rw [if_pos hrv] at h'
      cases h'
    · rw [if_neg hrv] at h'
      injection h' with h'
      subst h'
      rfl


/-- The scraped release of the C8 counterexample: one CVE marked actively
exploited by the enrichment of the scraped data, not present in the KEV
set. -/
def c8Rel : Scraped :=
  ⟨some "18.1", "iOS 18.1", "https://support.apple.com/100000", "2024-11-01T00:00:00Z",
   none, ["CVE-2024-0001"], ["CVE-2024-0001"]⟩

/-- C8 counterexample: in the assembled block the `Latest` object and the
first `SecurityReleases` entry describe the same release but are not
equal: `Latest.CVEs` marks the CVE exploited from the scraped
`actively_exploited_cves` field, while the `SecurityReleases` entry
rebuilds its CVE map starting all-`False` and enriching with KEV only, so
the maps differ (and the entry carries no `Build`/`AllBuilds` fields at
all). -/
theorem c8_counterexample :
    ((buildOsVersionData "iOS" "18" [c8Rel] ⟨[], []⟩ true [] id
        (fun _ => none)).Latest.map (·.CVEs)) = some [("CVE-2024-0001", true)] ∧
    ((buildOsVersionData "iOS" "18" [c8Rel] ⟨[], []⟩ true [] id
        (fun _ => none)).SecurityReleases.head?.map (·.CVEs)) =
      some [("CVE-2024-0001", false)] ∧
    ((buildOsVersionData "iOS" "18" [c8Rel] ⟨[], []⟩ true [] id
        (fun _ => none)).Latest.map (·.ActivelyExploitedCVEs)) =
      some ["CVE-2024-0001"] ∧
    ((buildOsVersionData "iOS" "18" [c8Rel] ⟨[], []⟩ true [] id
        (fun _ => none)).SecurityReleases.head?.map (·.ActivelyExploitedCVEs)) =
      some [] ∧
    (some [("CVE-2024-0001", true)] : Option (List (String × Bool))) ≠
      some [("CVE-2024-0001", false)] := by
  refine ⟨by decide, by decide, by decide, by decide, by decide⟩

/-- C8 (amended): in every assembled `OSVersion` block the
`SecurityReleases` array is sorted newest-first by packaging-style version
comparison, and `Latest` describes the same release as the first entry —
equal `ProductVersion`, `ReleaseDate`, `SecurityInfo` and
`SupportedDevices` — but is not the same object: its `CVEs` map and
`ActivelyExploitedCVEs` come from the scraped enrichment while the entry's
are rebuilt from KEV data alone, and the entry carries no
`Build`/`AllBuilds`/`ExpirationDate` fields. -/
theorem c8_sorted_latest_amended (osType major : String) (releases : List Scraped)
    (g : GdmfData) (kevOk : Bool) (kevSet : List String)
    (fmtDate : String → String) (parseDate : String → Option Int) :
    List.Pairwise srNewerRel
      (buildOsVersionData osType major releases g kevOk kevSet fmtDate
        parseDate).SecurityReleases ∧
    (∀ hd, (buildOsVersionData osType major releases g kevOk kevSet fmtDate
        parseDate).SecurityReleases.head? = some hd →
      ∃ L, (buildOsVersionData osType major releases g kevOk kevSet fmtDate
          parseDate).Latest = some L ∧
        L.ProductVersion = hd.ProductVersion ∧
        L.ReleaseDate = hd.ReleaseDate ∧
        L.SecurityInfo = hd.SecurityInfo ∧
        L.SupportedDevices = hd.SupportedDevices) := by
  cases hsort : sortedReleases major releases with
  | nil =>
    have hb : buildOsVersionData osType major releases g kevOk kevSet fmtDate
        parseDate = ⟨major, none, []⟩ := by
      simp [buildOsVersionData, hsort]
    rw [hb]
    exact ⟨List.Pairwise.nil, fun hd hhd => by cases hhd⟩
  | cons release rest =>
    cases hv : release.version with
    | none =>
      have hb : buildOsVersionData osType major releases g kevOk kevSet fmtDate
          parseDate = ⟨major, none, []⟩ := by
        simp [buildOsVersionData, hsort, hv]
      rw [hb]
      exact ⟨List.Pairwise.nil, fun hd hhd => by cases hhd⟩
    | some v =>
      by_cases hveq : v = ""
      · have hb : buildOsVersionData osType major releases g kevOk kevSet fmtDate
            parseDate = ⟨major, none, []⟩ := by
          simp [buildOsVersionData, hsort, hv, hveq]
        rw [hb]
        exact ⟨List.Pairwise.nil, fun hd hhd => by cases hhd⟩
      · have hb : buildOsVersionData osType major releases g kevOk kevSet fmtDate
            parseDate =
            ⟨major, some (mkLatestEntry osType fmtDate g release v),
             applyDaysMap parseDate
               (mkSecurityReleases osType fmtDate g kevOk kevSet
                 (release :: rest))⟩ := by
          simp [buildOsVersionData, hsort, hv, hveq]
        rw [hb]
        have hsorted : List.Pairwise newerRel (release :: rest) := by
          have hs := List.sorted_insertionSort newerRel (matchingReleases major releases)
          have hs2 : List.Sorted newerRel (sortedReleases major releases) := hs
          rw [hsort] at hs2
          exact hs2
        have hpw : List.Pairwise srNewerRel
            (mkSecurityReleases osType fmtDate g kevOk kevSet (release :: rest)) := by
          refine pairwise_filterMap_transfer newerRel srNewerRel _ _ hsorted ?_
          intro a b x y hab hfa hfb
          have hva := mkSecurityReleases_entry osType fmtDate g kevOk kevSet a x hfa
          have hvb := mkSecurityReleases_entry osType fmtDate g kevOk kevSet b y hfb
          unfold srNewerRel
          unfold newerRel scrapedVerKey at hab
          rw [hva, hvb] at hab
          simpa using hab
        have hf : (release.version.bind fun rv =>
            if rv = "" then none
            else some (mkSREntry osType fmtDate g kevOk kevSet release rv)) =
            some (mkSREntry osType fmtDate g kevOk kevSet release v) := by
          rw [hv]
          simp [hveq]
        have hfs : mkSecurityReleases osType fmtDate g kevOk kevSet (release :: rest) =
            mkSREntry osType fmtDate g kevOk kevSet release v ::
              mkSecurityReleases osType fmtDate g kevOk kevSet rest := by
          unfold mkSecurityReleases
          rw [List.filterMap_cons, hf]
        constructor
        · dsimp only
          unfold applyDaysMap
          refine List.pairwise_map.mpr (hpw.imp ?_)
          intro a b hab
          unfold srNewerRel at hab ⊢
          rw [(updateDaysEntry_fields _ a).1, (updateDaysEntry_fields _ b).1]
          exact hab
        · intro hd hhd
          dsimp only at hhd ⊢
          unfold applyDaysMap at hhd
          rw [List.head?_map, hfs] at hhd
          simp only [List.head?_cons, Option.map_some'] at hhd
          injection hhd with hhd
          subst hhd
          refine ⟨mkLatestEntry osType fmtDate g release v, rfl, ?_, ?_, ?_, ?_⟩
          · rw [(updateDaysEntry_fields _ _).1]
            rfl
          · rw [(updateDaysEntry_fields _ _).2.1]
            rfl
          · rw [(updateDaysEntry_fields _ _).2.2.1]
            rfl
          · rw [(updateDaysEntry_fields _ _).2.2.2.1]
            rfl

/-- Witness for `c8_sorted_latest_amended`: two iOS 18 releases assembled
into one block. -/
theorem c8_sorted_latest_amended_witness :
    List.Pairwise srNewerRel
      (buildOsVersionData "iOS" "18"
        [c8Rel, ⟨some "18.2", "iOS 18.2", "https://support.apple.com/100001",
          "2024-12-11T00:00:00Z", none, ["CVE-2024-0002"], []⟩]
        ⟨[], []⟩ true [] id (fun _ => none)).SecurityReleases ∧
    ∃ L, (buildOsVersionData "iOS" "18"
        [c8Rel, ⟨some "18.2", "iOS 18.2", "https://support.apple.com/100001",
          "2024-12-11T00:00:00Z", none, ["CVE-2024-0002"], []⟩]
        ⟨[], []⟩ true [] id (fun _ => none)).Latest = some L ∧
      L.ProductVersion = "18.2" := by
  have h := c8_sorted_latest_amended "iOS" "18"
    [c8Rel, ⟨some "18.2", "iOS 18.2", "https://support.apple.com/100001",
      "2024-12-11T00:00:00Z", none, ["CVE-2024-0002"], []⟩]
    ⟨[], []⟩ true [] id (fun _ => none)
  refine ⟨h.1, ?_⟩
  cases hhd : (buildOsVersionData "iOS" "18"
      [c8Rel, ⟨some "18.2", "iOS 18.2", "https://support.apple.com/100001",
        "2024-12-11T00:00:00Z", none, ["CVE-2024-0002"], []⟩]
      ⟨[], []⟩ true [] id (fun _ => none)).SecurityReleases.head? with
  | none => exact absurd hhd (by decide)
  | some hd =>
    obtain ⟨L, hL, hPV, _, _, _⟩ := h.2 hd hhd
    refine ⟨L, hL, ?_⟩
    rw [hPV]
    have h18 : ((buildOsVersionData "iOS" "18"
        [c8Rel, ⟨some "18.2", "iOS 18.2", "https://support.apple.com/100001",
          "2024-12-11T00:00:00Z", none, ["CVE-2024-0002"], []⟩]
        ⟨[], []⟩ true [] id (fun _ => none)).SecurityReleases.head?.map
          (·.ProductVersion)) = some "18.2" := by decide
    rw [hhd] at h18
    simpa using h18


/-! ### C7: `extract_cves_from_text` (build_security_releases.py 74, 146-150)

The extractor scans the page text with

    RE_CVE = re.compile(r"\bCVE-\d{4}-\d{4,7}\b", re.IGNORECASE)
    cves = RE_CVE.findall(text)
    return sorted(set(c.upper() for c in cves),
                  key=lambda s: (s.split("-")[1], int(s.split("-")[2])))

The regular expression is modelled as a structural scanner on the
character list: `matchCveAt` is one anchored attempt of the pattern at
the current position (the greedy `\d\x7b4,7\x7d` followed by `\b` is
equivalent to taking the entire digit run, requiring its length to be
between 4 and 7 and the following character to be a non-word character),
and `findAllCveAux` is `findall`: left-to-right, non-overlapping, with
the leading `\b` expressed through a previous-character-is-word flag. -/

/-- Python regex `\w` on ASCII text: letters, digits, underscore. -/
def isWordChar (c : Char) : Bool := c.isAlpha || c.isDigit || c == '_'

/-- The trailing `\b` of `RE_CVE`: end of text or a non-word character. -/
def boundaryOk : List Char → Bool
  | [] => true
  | c :: _ => !(isWordChar c)

/-- One attempt of `RE_CVE` anchored at the head of `l` (the leading `\b`
is checked by the caller): case-insensitive literal `CVE-`, exactly four
digits, `-`, then a greedy run of 4-7 digits ending at a word boundary.
Returns the matched characters and the remaining text. -/
def matchCveAt : List Char → Option (List Char × List Char)
  | c :: v :: e :: h1 :: y1 :: y2 :: y3 :: y4 :: h2 :: rest =>
    if (c == 'c' || c == 'C') && (v == 'v' || v == 'V') && (e == 'e' || e == 'E')
        && h1 == '-' && y1.isDigit && y2.isDigit && y3.isDigit && y4.isDigit
        && h2 == '-' then
      let ds := rest.takeWhile Char.isDigit
      let rem := rest.dropWhile Char.isDigit
      if 4 ≤ ds.length && ds.length ≤ 7 && boundaryOk rem then
        some (c :: v :: e :: h1 :: y1 :: y2 :: y3 :: y4 :: h2 :: ds, rem)
      else none
    else none
  | _ => none

theorem length_dropWhile_le (p : Char → Bool) :
    ∀ l : List Char, (l.dropWhile p).length ≤ l.length := by
  intro l
  induction l with
  | nil => simp
  | cons c cs ih =>
    by_cases h : p c
    · simpa [List.dropWhile, h] using Nat.le_succ_of_le ih
    · simp [List.dropWhile, h]

theorem matchCveAt_rem_length {l m rem : List Char}
    (h : matchCveAt l = some (m, rem)) : rem.length < l.length := by
  match l with
  | [] => cases h
  | [a] => cases h
  | [a, b] => cases h
  | [a, b, c] => cases h
  | [a, b, c, d] => cases h
  | [a, b, c, d, e] => cases h
  | [a, b, c, d, e, f] => cases h
  | [a, b, c, d, e, f, g] => cases h
  | [a, b, c, d, e, f, g, i] => cases h
  | c :: v :: e :: h1 :: y1 :: y2 :: y3 :: y4 :: h2 :: rest =>
    simp only [matchCveAt] at h
    split at h
    · split at h
      · injection h with h'
        injection h' with hm' hrem'
        subst hrem'
        have : (rest.dropWhile Char.isDigit).length ≤ rest.length :=
          length_dropWhile_le Char.isDigit rest
        simp only [List.length_cons]
        omega
      · cases h
    · cases h

/-- `RE_CVE.findall`: scan left to right; at a position whose previous
character is not a word character try the pattern, on success emit the
match and continue after it (its last character is a digit, so the flag
becomes `true`). -/
def findAllCveAux : Bool → List Char → List (List Char)
  | _, [] => []
  | prevW, c :: rest =>
    if prevW then findAllCveAux (isWordChar c) rest
    else
      match hm : matchCveAt (c :: rest) with
      | some (m, rem) => m :: findAllCveAux true rem
      | none => findAllCveAux (isWordChar c) rest
termination_by _ l => l.length
decreasing_by
  all_goals simp_wf
  all_goals
    have h9 := matchCveAt_rem_length hm
    simp only [List.length_cons] at h9 ⊢
    omega

/-- `s.split("-")[1]`: the year component of a CVE id (total via a
default; every string this is applied to has at least three components). -/
def cveYearChars (s : String) : List Char := (splitOnChar '-' s.data).getD 1 []

/-- `int(s.split("-")[2])`: the numeric sequence component of a CVE id. -/
def cveSeqNum (s : String) : Nat := natOfDigits ((splitOnChar '-' s.data).getD 2 [])

/-- The sort key of `extract_cves_from_text`: the Python tuple comparison
of `(s.split("-")[1], int(s.split("-")[2]))` — year component compared as
a string (code-point lexicographic), ties broken by the integer sequence. -/
def cveLeB (a b : String) : Bool :=
  if cveYearChars a = cveYearChars b then decide (cveSeqNum a ≤ cveSeqNum b)
  else natLexLeB ((cveYearChars a).map Char.toNat) ((cveYearChars b).map Char.toNat)

/-- The key order as a relation, for `sorted`. -/
def cveLe (a b : String) : Prop := cveLeB a b = true

instance : DecidableRel cveLe := fun a b =>
  inferInstanceAs (Decidable (cveLeB a b = true))

theorem natLexLeB_antisymm : ∀ {a b : List Nat},
    natLexLeB a b = true → natLexLeB b a = true → a = b := by
  intro a
  induction a with
  | nil =>
    intro b _ hba
    cases b with
    | nil => rfl
    | cons y ys => simp [natLexLeB] at hba
  | cons x xs ih =>
    intro b hab hba
    cases b with
    | nil => simp [natLexLeB] at hab
    | cons y ys =>
      simp only [natLexLeB] at hab hba
      by_cases hxy : x < y
      · simp [hxy, Nat.lt_asymm hxy] at hba
      · by_cases hyx : y < x
        · simp [hxy, hyx] at hab
        · have hx : x = y := Nat.le_antisymm (Nat.not_lt.mp hyx) (Nat.not_lt.mp hxy)
          subst hx
          simp only [if_neg hxy] at hab hba
          rw [ih hab hba]

instance : IsTotal String cveLe := by
  refine ⟨fun a b => ?_⟩
  unfold cveLe cveLeB
  by_cases hy : cveYearChars a = cveYearChars b
  · rw [if_pos hy, if_pos hy.symm]
    rcases Nat.le_total (cveSeqNum a) (cveSeqNum b) with h | h
    · exact Or.inl (by simpa using h)
    · exact Or.inr (by simpa using h)
  · rw [if_neg hy, if_neg (fun hh => hy hh.symm)]
    exact natLexLeB_total _ _

instance : IsTrans String cveLe := by
  refine ⟨fun a b c hab hbc => ?_⟩
  unfold cveLe cveLeB at hab hbc ⊢
  by_cases hab' : cveYearChars a = cveYearChars b
  · by_cases hbc' : cveYearChars b = cveYearChars c
    · rw [if_pos hab'] at hab
      rw [if_pos hbc'] at hbc
      rw [if_pos (hab'.trans hbc')]
      simp only [decide_eq_true_eq] at hab hbc ⊢
      exact Nat.le_trans hab hbc
    · rw [if_neg hbc'] at hbc
      have hac : cveYearChars a ≠ cveYearChars c := fun hh => hbc' (hab' ▸ hh)
      rw [if_neg hac, hab']
      exact hbc
  · by_cases hbc' : cveYearChars b = cveYearChars c
    · rw [if_neg hab'] at hab
      have hac : cveYearChars a ≠ cveYearChars c := fun hh => hab' (hh.trans hbc'.symm)
      rw [if_neg hac, ← hbc']
      exact hab
    · rw [if_neg hab'] at hab
      rw [if_neg hbc'] at hbc
      by_cases hac : cveYearChars a = cveYearChars c
      · exfalso
        apply hab'
        have := natLexLeB_antisymm hab (hac ▸ hbc)
        exact List.map_injective_iff.mpr (fun x y hxy => by
          exact Char.ofNat_toNat x ▸ Char.ofNat_toNat y ▸ congrArg Char.ofNat hxy) this
      · rw [if_neg hac]
        exact natLexLeB_trans hab hbc

/-- `extract_cves_from_text` (lines 146-150): find all matches, upper-case
them, deduplicate (`set`, modelled in first-seen order; the stated
properties do not depend on the set's iteration order), and sort by
`(year-string, int(sequence))`. -/
def extract_cves_from_text (text : String) : List String :=
  List.insertionSort cveLe
    (dedupKeepFirst
      ((findAllCveAux false text.data).map fun m => String.mk (m.map Char.toUpper)))

/-- Every successful match of `RE_CVE` has the literal shape
`[cC][vV][eE]-dddd-ds` with `ds` a run of digits. -/
theorem matchCveAt_shape {l m rem : List Char}
    (h : matchCveAt l = some (m, rem)) :
    ∃ c v e y1 y2 y3 y4 ds,
      m = c :: v :: e :: '-' :: y1 :: y2 :: y3 :: y4 :: '-' :: ds ∧
      (c = 'c' ∨ c = 'C') ∧ (v = 'v' ∨ v = 'V') ∧ (e = 'e' ∨ e = 'E') ∧
      y1.isDigit = true ∧ y2.isDigit = true ∧ y3.isDigit = true ∧
      y4.isDigit = true ∧ (∀ x ∈ ds, x.isDigit = true) := by
  match l with
  | [] => cases h
  | [a] => cases h
  | [a, b] => cases h
  | [a, b, c] => cases h
  | [a, b, c, d] => cases h
  | [a, b, c, d, e] => cases h
  | [a, b, c, d, e, f] => cases h
  | [a, b, c, d, e, f, g] => cases h
  | [a, b, c, d, e, f, g, i] => cases h
  | c :: v :: e :: h1 :: y1 :: y2 :: y3 :: y4 :: h2 :: rest =>
    simp only [matchCveAt] at h
    split at h
    case isFalse => cases h
    case isTrue hcond =>
      split at h
      case isFalse => cases h
      case isTrue hlen =>
        injection h with h'
        injection h' with hm' hrem'
        simp only [Bool.and_eq_true, Bool.or_eq_true, beq_iff_eq] at hcond
        obtain ⟨⟨⟨⟨⟨⟨⟨⟨hc, hv⟩, he⟩, hh1⟩, hy1⟩, hy2⟩, hy3⟩, hy4⟩, hh2⟩ := hcond
        subst hh1; subst hh2
        exact ⟨c, v, e, y1, y2, y3, y4, rest.takeWhile Char.isDigit, hm'.symm,
          hc, hv, he, hy1, hy2, hy3, hy4, fun x hx => List.mem_takeWhile_imp hx⟩

/-- Every element of the `findall` result is a successful match of the
pattern somewhere in the text. -/
theorem findAllCveAux_shape (n : Nat) :
    ∀ l : List Char, l.length ≤ n → ∀ b m, m ∈ findAllCveAux b l →
      ∃ l' rem, matchCveAt l' = some (m, rem) := by
  induction n with
  | zero =>
    intro l hl b m hm
    cases l with
    | nil => simp [findAllCveAux] at hm
    | cons c rest => simp at hl
  | succ n ih =>
    intro l hl b m hm
    cases l with
    | nil => simp [findAllCveAux] at hm
    | cons c rest =>
      rw [findAllCveAux] at hm
      by_cases hb : b
      · rw [if_pos hb] at hm
        exact ih rest (by simpa using Nat.le_of_succ_le_succ hl) _ m hm
      · rw [if_neg hb] at hm
        cases hmc : matchCveAt (c :: rest) with
        | none =>
          rw [hmc] at hm
          exact ih rest (by simpa using Nat.le_of_succ_le_succ hl) _ m hm
        | some p =>
          obtain ⟨m0, rem⟩ := p
          rw [hmc] at hm
          rcases List.mem_cons.mp hm with rfl | hm'
          · exact ⟨c :: rest, rem, hmc⟩
          · have hrem : rem.length ≤ n := by
              have := matchCveAt_rem_length hmc
              simp only [List.length_cons] at this hl
              omega
            exact ih rem hrem true m hm'

/-- `splitOnChar` on a separator-free list is the single segment. -/
theorem splitOnChar_no_sep (sep : Char) :
    ∀ l : List Char, (∀ c ∈ l, c ≠ sep) → splitOnChar sep l = [l] := by
  intro l
  induction l with
  | nil => intro _; rfl
  | cons c cs ih =>
    intro h
    have hc : c ≠ sep := h c (List.mem_cons_self c cs)
    rw [splitOnChar, if_neg hc, ih (fun x hx => h x (List.mem_cons_of_mem c hx))]

/-- `splitOnChar` across the first separator. -/
theorem splitOnChar_append_sep (sep : Char) :
    ∀ l₁ l₂ : List Char, (∀ c ∈ l₁, c ≠ sep) →
      splitOnChar sep (l₁ ++ sep :: l₂) = l₁ :: splitOnChar sep l₂ := by
  intro l₁
  induction l₁ with
  | nil => intro l₂ _; simp [splitOnChar]
  | cons c cs ih =>
    intro l₂ h
    have hc : c ≠ sep := h c (List.mem_cons_self c cs)
    rw [List.cons_append, splitOnChar, if_neg hc,
      ih l₂ (fun x hx => h x (List.mem_cons_of_mem c hx))]

/-- An ASCII digit is fixed by `Char.toUpper`. -/
theorem toUpper_digit {c : Char} (h : c.isDigit = true) : c.toUpper = c := by
  simp only [Char.isDigit, Bool.and_eq_true, decide_eq_true_eq] at h
  have h2 : c.toNat ≤ 57 := by exact_mod_cast h.2
  unfold Char.toUpper
  rw [if_neg (by omega)]

/-- An ASCII digit is not the hyphen. -/
theorem digit_ne_dash {c : Char} (h : c.isDigit = true) : c ≠ '-' := by
  intro hc
  subst hc
  simp [Char.isDigit] at h

/-- The year component of an upper-cased match is its four year digits,
and the sequence component is its digit run. -/
theorem upperMatch_components {m rem l : List Char}
    (h : matchCveAt l = some (m, rem)) :
    (cveYearChars (String.mk (m.map Char.toUpper))).length = 4 ∧
    (∀ c ∈ cveYearChars (String.mk (m.map Char.toUpper)), c.isDigit = true) := by
  obtain ⟨c, v, e, y1, y2, y3, y4, ds, hm, hc, hv, he, hy1, hy2, hy3, hy4, hds⟩ :=
    matchCveAt_shape h
  subst hm
  have hCu : c.toUpper = 'C' := by rcases hc with rfl | rfl <;> decide
  have hVu : v.toUpper = 'V' := by rcases hv with rfl | rfl <;> decide
  have hEu : e.toUpper = 'E' := by rcases he with rfl | rfl <;> decide
  have hdata : (String.mk ((c :: v :: e :: '-' :: y1 :: y2 :: y3 :: y4 :: '-' :: ds).map
      Char.toUpper)).data =
      ['C', 'V', 'E'] ++ '-' :: ([y1, y2, y3, y4] ++ '-' :: ds.map Char.toUpper) := by
    simp [hCu, hVu, hEu, toUpper_digit hy1, toUpper_digit hy2, toUpper_digit hy3,
      toUpper_digit hy4]
  have hYnd : ∀ x ∈ [y1, y2, y3, y4], x ≠ '-' := by
    intro x hx
    simp only [List.mem_cons, List.not_mem_nil, or_false] at hx
    rcases hx with rfl | rfl | rfl | rfl
    · exact digit_ne_dash hy1
    · exact digit_ne_dash hy2
    · exact digit_ne_dash hy3
    · exact digit_ne_dash hy4
  have hDnd : ∀ x ∈ ds.map Char.toUpper, x ≠ '-' := by
    intro x hx
    obtain ⟨x0, hx0, rfl⟩ := List.mem_map.mp hx
    rw [toUpper_digit (hds x0 hx0)]
    exact digit_ne_dash (hds x0 hx0)
  have hsplit : splitOnChar '-' (['C', 'V', 'E'] ++
      '-' :: ([y1, y2, y3, y4] ++ '-' :: ds.map Char.toUpper)) =
      ['C', 'V', 'E'] :: [y1, y2, y3, y4] :: [ds.map Char.toUpper] := by
    rw [splitOnChar_append_sep '-' ['C', 'V', 'E'] _ (by decide),
      splitOnChar_append_sep '-' [y1, y2, y3, y4] _ hYnd,
      splitOnChar_no_sep '-' (ds.map Char.toUpper) hDnd]
  constructor
  · unfold cveYearChars
    rw [hdata, hsplit]
    rfl
  · unfold cveYearChars
    rw [hdata, hsplit]
    intro x hx
    have hx' : x ∈ [y1, y2, y3, y4] := hx
    simp only [List.mem_cons, List.not_mem_nil, or_false] at hx'
    rcases hx' with rfl | rfl | rfl | rfl
    · exact hy1
    · exact hy2
    · exact hy3
    · exact hy4

theorem natOfDigits_foldl (acc : Nat) :
    ∀ l : List Char,
      l.foldl (fun a c => a * 10 + (c.toNat - 48)) acc =
        acc * 10 ^ l.length + natOfDigits l := by
  intro l
  induction l generalizing acc with
  | nil => simp [natOfDigits]
  | cons c cs ih =>
    have h1 : (c :: cs).foldl (fun a c => a * 10 + (c.toNat - 48)) acc =
        cs.foldl (fun a c => a * 10 + (c.toNat - 48)) (acc * 10 + (c.toNat - 48)) := rfl
    have h2 : natOfDigits (c :: cs) =
        cs.foldl (fun a c => a * 10 + (c.toNat - 48)) (c.toNat - 48) := by
      simp [natOfDigits]
    rw [h1, h2, ih, ih]
    simp only [List.length_cons, pow_succ]
    ring

theorem natOfDigits_cons (c : Char) (cs : List Char) :
    natOfDigits (c :: cs) = (c.toNat - 48) * 10 ^ cs.length + natOfDigits cs := by
  have h : natOfDigits (c :: cs) =
      cs.foldl (fun a c => a * 10 + (c.toNat - 48)) (c.toNat - 48) := by
    simp [natOfDigits]
  rw [h, natOfDigits_foldl]

theorem digit_toNat_bounds {c : Char} (h : c.isDigit = true) :
    48 ≤ c.toNat ∧ c.toNat ≤ 57 := by
  simp only [Char.isDigit, Bool.and_eq_true, decide_eq_true_eq] at h
  exact ⟨by exact_mod_cast h.1, by exact_mod_cast h.2⟩

theorem natOfDigits_lt_pow :
    ∀ l : List Char, (∀ c ∈ l, c.isDigit = true) → natOfDigits l < 10 ^ l.length := by
  intro l
  induction l with
  | nil => intro _; simp [natOfDigits]
  | cons c cs ih =>
    intro h
    have hc := digit_toNat_bounds (h c (List.mem_cons_self c cs))
    have hcs := ih fun x hx => h x (List.mem_cons_of_mem c hx)
    rw [natOfDigits_cons]
    have hd9 : c.toNat - 48 ≤ 9 := by omega
    calc (c.toNat - 48) * 10 ^ cs.length + natOfDigits cs
        < (c.toNat - 48) * 10 ^ cs.length + 10 ^ cs.length := by omega
      _ = (c.toNat - 48 + 1) * 10 ^ cs.length := by ring
      _ ≤ 10 * 10 ^ cs.length := Nat.mul_le_mul_right _ (by omega)
      _ = 10 ^ (c :: cs).length := by rw [List.length_cons]; ring

/-- On equal-length digit strings, code-point lexicographic order is
strict numeric order (the comparison Python makes on the zero-padded year
components). -/
theorem digits_lex_lt :
    ∀ ds es : List Char, ds.length = es.length →
      (∀ c ∈ ds, c.isDigit = true) → (∀ c ∈ es, c.isDigit = true) →
      ds ≠ es →
      natLexLeB (ds.map Char.toNat) (es.map Char.toNat) = true →
      natOfDigits ds < natOfDigits es := by
  intro ds
  induction ds with
  | nil =>
    intro es hlen _ _ hne _
    cases es with
    | nil => exact absurd rfl hne
    | cons e es' => simp at hlen
  | cons d ds' ih =>
    intro es hlen hd he hne hlex
    cases es with
    | nil => simp at hlen
    | cons e es' =>
      simp only [List.length_cons] at hlen
      have hlen' : ds'.length = es'.length := by omega
      have hdb := digit_toNat_bounds (hd d (List.mem_cons_self d ds'))
      have heb := digit_toNat_bounds (he e (List.mem_cons_self e es'))
      simp only [List.map_cons, natLexLeB] at hlex
      by_cases hde : d.toNat < e.toNat
      · rw [natOfDigits_cons, natOfDigits_cons, hlen']
        have hlt : natOfDigits ds' < 10 ^ es'.length := by
          rw [← hlen']
          exact natOfDigits_lt_pow ds' fun x hx => hd x (List.mem_cons_of_mem d hx)
        have hstep : d.toNat - 48 + 1 ≤ e.toNat - 48 := by omega
        calc (d.toNat - 48) * 10 ^ es'.length + natOfDigits ds'
            < (d.toNat - 48 + 1) * 10 ^ es'.length := by
              have : (d.toNat - 48 + 1) * 10 ^ es'.length =
                  (d.toNat - 48) * 10 ^ es'.length + 10 ^ es'.length := by ring
              omega
          _ ≤ (e.toNat - 48) * 10 ^ es'.length := Nat.mul_le_mul_right _ hstep
          _ ≤ (e.toNat - 48) * 10 ^ es'.length + natOfDigits es' := Nat.le_add_right _ _
      · by_cases hed : e.toNat < d.toNat
        · rw [if_neg hde, if_pos hed] at hlex
          cases hlex
        · have heqn : d.toNat = e.toNat := by omega
          have heq : d = e := by
            rw [← Char.ofNat_toNat d, ← Char.ofNat_toNat e, heqn]
          subst heq
          rw [if_neg hde, if_neg hed] at hlex
          have hne' : ds' ≠ es' := fun hh => hne (by rw [hh])
          have := ih es' hlen' (fun x hx => hd x (List.mem_cons_of_mem d hx))
            (fun x hx => he x (List.mem_cons_of_mem d hx)) hne' hlex
          rw [natOfDigits_cons, natOfDigits_cons, hlen']
          omega

/-- Year/digit facts for every element of the extractor output. -/
theorem extract_year_shape (text : String) (s : String)
    (hs : s ∈ extract_cves_from_text text) :
    (cveYearChars s).length = 4 ∧ (∀ c ∈ cveYearChars s, c.isDigit = true) := by
  unfold extract_cves_from_text at hs
  have hs1 := (List.perm_insertionSort cveLe _).mem_iff.mp hs
  have hs2 := (mem_dedupKeepFirst _ _).mp hs1
  obtain ⟨m, hm, rfl⟩ := List.mem_map.mp hs2
  obtain ⟨l', rem, hmatch⟩ :=
    findAllCveAux_shape text.data.length text.data (Nat.le_refl _) false m hm
  exact upperMatch_components hmatch

/-- C7: every `cves` list produced by `extract_cves_from_text` contains no
duplicates and is sorted by CVE year ascending, then by numeric sequence
ascending. -/
theorem c7_cves_nodup_sorted (text : String) :
    (extract_cves_from_text text).Nodup ∧
    (extract_cves_from_text text).Pairwise (fun a b =>
      natOfDigits (cveYearChars a) < natOfDigits (cveYearChars b) ∨
        (natOfDigits (cveYearChars a) = natOfDigits (cveYearChars b) ∧
          cveSeqNum a ≤ cveSeqNum b)) := by
  constructor
  · exact (List.perm_insertionSort cveLe _).nodup_iff.mpr (nodup_dedupKeepFirst _)
  · have hsorted : (extract_cves_from_text text).Pairwise cveLe :=
      List.sorted_insertionSort cveLe _
    refine hsorted.imp_of_mem ?_
    intro a b ha hb hab
    obtain ⟨hla, hda⟩ := extract_year_shape text a ha
    obtain ⟨hlb, hdb⟩ := extract_year_shape text b hb
    unfold cveLe cveLeB at hab
    by_cases hy : cveYearChars a = cveYearChars b
    · rw [if_pos hy] at hab
      exact Or.inr ⟨by rw [hy], by simpa using hab⟩
    · rw [if_neg hy] at hab
      exact Or.inl (digits_lex_lt _ _ (hla.trans hlb.symm) hda hdb hy hab)

end Sofa
